import Mathlib

/-!
Verification of the client-side cart subsystem of the Spensit storefront
template.  The definitions below are shallow embeddings of the TypeScript
source: the cart reducer, the localStorage persistence adapter, the
majority-currency display heuristic, and the two checkout handoff handlers
(CheckoutButton and CartDrawer).  JavaScript numbers that the cart stores
(price, quantity) are modelled as integers; JSON.stringify/JSON.parse are
modelled by an executable printer and parser over an inductive JSON value
type, restricted to the whitespace-free grammar that the printer emits.
-/

/- ------------------------------------------------------------------------
 - Data model (CartContext.tsx)
 - --------------------------------------------------------------------- -/

/-- Shape of a single item in the cart (interface CartItem in
CartContext.tsx).  `price` and `quantity` are JavaScript numbers in the
source; the cart only ever stores and adds them, so they are modelled as
integers.  `color` and `size` are `string | null`, modelled as
`Option String` with `none` for `null`. -/
structure CartItem where
  productId : String
  name : String
  price : Int
  currency : String
  image : String
  color : Option String
  size : Option String
  quantity : Int
deriving Repr, DecidableEq

/-- The `(productId, color, size)` triple that determines variant identity. -/
structure VariantKey where
  productId : String
  color : Option String
  size : Option String
deriving Repr, DecidableEq

/-- The variant identity of a cart item. -/
def CartItem.key (it : CartItem) : VariantKey :=
  ⟨it.productId, it.color, it.size⟩

/-- `isSameVariant` from CartContext.tsx: a match requires identical
`productId`, `color`, and `size` (JavaScript `===`; `null === null` is
true, modelled by equality on `Option String`). -/
def isSameVariant (a b : VariantKey) : Bool :=
  a.productId == b.productId && a.color == b.color && a.size == b.size

/-- The action vocabulary of the cart reducer (type CartAction in
CartContext.tsx): ADD_ITEM, REMOVE_ITEM, UPDATE_QUANTITY, CLEAR_CART,
HYDRATE. -/
inductive CartAction where
  | addItem (payload : CartItem)
  | removeItem (payload : VariantKey)
  | updateQuantity (payload : VariantKey) (quantity : Int)
  | clearCart
  | hydrate (payload : List CartItem)
deriving Repr

/-- The ADD_ITEM branch of `cartReducer`: `state.findIndex` locates the
first entry with the same variant; if found, only that entry's quantity is
incremented by the payload quantity (spread retains all other stored
fields); otherwise the payload is appended at the end.  The
findIndex-and-copy loop of the source is rendered as first-match
recursion, which has exactly that behaviour. -/
def addToCart (payload : CartItem) : List CartItem → List CartItem
  | [] => [payload]
  | item :: rest =>
    if isSameVariant item.key payload.key then
      { item with quantity := item.quantity + payload.quantity } :: rest
    else
      item :: addToCart payload rest

/-- `cartReducer` from CartContext.tsx.  REMOVE_ITEM filters out every
matching entry; UPDATE_QUANTITY maps `Math.max(1, quantity)` onto every
matching entry and leaves the rest untouched; CLEAR_CART returns the empty
list; HYDRATE replaces the whole list with the payload verbatim. -/
def cartReducer (state : List CartItem) (action : CartAction) : List CartItem :=
  match action with
  | .addItem payload => addToCart payload state
  | .removeItem payload =>
      state.filter (fun item => !(isSameVariant item.key payload))
  | .updateQuantity payload q =>
      state.map (fun item =>
        if isSameVariant item.key payload then { item with quantity := max 1 q } else item)
  | .clearCart => []
  | .hydrate payload => payload

/- ------------------------------------------------------------------------
 - JSON values (model of the JavaScript values handled by JSON.stringify /
 - JSON.parse and of the checkout request bodies)
 - --------------------------------------------------------------------- -/

/-- A JSON value.  Numbers are modelled as integers (see the remark on
`CartItem`); object fields are an ordered association list, matching the
insertion order that JavaScript objects preserve for the non-index string
keys used throughout this code base. -/
inductive Json where
  | null
  | bool (b : Bool)
  | num (n : Int)
  | str (s : String)
  | arr (elems : List Json)
  | obj (fields : List (String × Json))
deriving Repr

mutual

/-- Whether a key named `k` occurs anywhere in the value, at any nesting
level. -/
def Json.hasKey (k : String) : Json → Bool
  | .null => false
  | .bool _ => false
  | .num _ => false
  | .str _ => false
  | .arr elems => hasKeyElems k elems
  | .obj fields => hasKeyFields k fields

/-- `Json.hasKey` over the elements of an array. -/
def hasKeyElems (k : String) : List Json → Bool
  | [] => false
  | j :: rest => Json.hasKey k j || hasKeyElems k rest

/-- `Json.hasKey` over the fields of an object. -/
def hasKeyFields (k : String) : List (String × Json) → Bool
  | [] => false
  | (k2, v) :: rest => k2 == k || Json.hasKey k v || hasKeyFields k rest

end

/-- The names of the top-level keys of an object (empty for non-objects). -/
def Json.topKeys : Json → List String
  | .obj fields => fields.map (fun f => f.1)
  | _ => []

/- ------------------------------------------------------------------------
 - JSON printer (model of JSON.stringify on the values this code stores)
 - --------------------------------------------------------------------- -/

/-- The character `\x7b` (opening curly bracket). -/
def lcurly : Char := Char.ofNat 123

/-- The character `\x7d` (closing curly bracket). -/
def rcurly : Char := Char.ofNat 125

/-- JSON string escaping for one character: quotation marks and
backslashes are escaped with a backslash, everything else is emitted
verbatim. -/
def escapeChar (c : Char) : List Char :=
  if c = '"' then ['\\', '"']
  else if c = '\\' then ['\\', '\\']
  else [c]

/-- JSON string escaping for a character sequence. -/
def escapeChars : List Char → List Char
  | [] => []
  | c :: rest => escapeChar c ++ escapeChars rest

/-- A printed JSON string: escaped content between quotation marks. -/
def printString (s : String) : List Char :=
  '"' :: escapeChars s.data ++ ['"']

/-- The decimal digit character for `d < 10`. -/
def digitChar (d : Nat) : Char := Char.ofNat (48 + d)

/-- Decimal printing of a natural number (most significant digit first). -/
def printNat (n : Nat) : List Char :=
  if n = 0 then ['0'] else ((Nat.digits 10 n).map digitChar).reverse

/-- Decimal printing of an integer. -/
def printInt (i : Int) : List Char :=
  if i < 0 then '-' :: printNat i.natAbs else printNat i.natAbs

/-- Comma-separated concatenation of printed fragments. -/
def commaSep : List (List Char) → List Char
  | [] => []
  | [x] => x
  | x :: rest => x ++ ',' :: commaSep rest

mutual

/-- The canonical (whitespace-free) rendering of a JSON value, exactly the
text that JSON.stringify produces for such a value. -/
def printJson : Json → List Char
  | .num i => printInt i
  | .str s => printString s
  | .arr elems => '[' :: commaSep (printElems elems) ++ [']']
  | .obj fields => lcurly :: commaSep (printFields fields) ++ [rcurly]
  | .bool false => ['f', 'a', 'l', 's', 'e']
  | .bool true => ['t', 'r', 'u', 'e']
  | .null => ['n', 'u', 'l', 'l']

/-- Printed fragments of array elements. -/
def printElems : List Json → List (List Char)
  | [] => []
  | j :: rest => printJson j :: printElems rest

/-- Printed fragments of object fields (`"key":value`). -/
def printFields : List (String × Json) → List (List Char)
  | [] => []
  | (k, v) :: rest => (printString k ++ ':' :: printJson v) :: printFields rest

end

/- ------------------------------------------------------------------------
 - JSON parser (model of JSON.parse, on the whitespace-free grammar)
 - --------------------------------------------------------------------- -/

/-- Parse the body of a JSON string after the opening quotation mark:
characters are taken verbatim up to the closing quotation mark, and a
backslash makes the following character literal.  (The full JSON escape
table maps `\n`, `\t`, ... to control characters; the printer above never
emits those escapes, so this lenient reading agrees with JSON.parse on
every printed string.)  Returns the content and the remaining input. -/
def parseStringBody : List Char → Option (List Char × List Char)
  | [] => none
  | c :: rest =>
    if c = '"' then some ([], rest)
    else if c = '\\' then
      match rest with
      | [] => none
      | c2 :: rest2 =>
        match parseStringBody rest2 with
        | some (content, rest3) => some (c2 :: content, rest3)
        | none => none
    else
      match parseStringBody rest with
      | some (content, rest2) => some (c :: content, rest2)
      | none => none

/-- The numeric value of a decimal digit character. -/
def charDigitVal (c : Char) : Nat := c.toNat - 48

/-- Parse a maximal non-empty run of decimal digits into a natural
number, returning it together with the remaining input. -/
def parseNat (cs : List Char) : Option (Nat × List Char) :=
  let ds := cs.takeWhile Char.isDigit
  if ds = [] then none
  else some (Nat.ofDigits 10 ((ds.map charDigitVal).reverse), cs.dropWhile Char.isDigit)

/-- One dispatch step of the value parser, parameterized by the parsers
for element and member sequences.  The head character selects the
production: the literals `null`/`true`/`false`, a string, a negative or
plain number, an array, or an object. -/
def parseValStep (pItems : List Char → Option (List Json × List Char))
    (pMembers : List Char → Option (List (String × Json) × List Char)) :
    List Char → Option (Json × List Char)
  | [] => none
  | c :: rest =>
    if c = 'n' then
      match rest with
      | 'u' :: 'l' :: 'l' :: rest2 => some (.null, rest2)
      | _ => none
    else if c = 't' then
      match rest with
      | 'r' :: 'u' :: 'e' :: rest2 => some (.bool true, rest2)
      | _ => none
    else if c = 'f' then
      match rest with
      | 'a' :: 'l' :: 's' :: 'e' :: rest2 => some (.bool false, rest2)
      | _ => none
    else if c = '"' then
      match parseStringBody rest with
      | some (content, rest2) => some (.str (String.mk content), rest2)
      | none => none
    else if c = '-' then
      match parseNat rest with
      | some (n, rest2) => some (.num (-(n : Int)), rest2)
      | none => none
    else if c = '[' then
      match rest with
      | [] => none
      | c2 :: rest2 =>
        if c2 = ']' then some (.arr [], rest2)
        else
          match pItems rest with
          | some (elems, ']' :: rest3) => some (.arr elems, rest3)
          | _ => none
    else if c = lcurly then
      match rest with
      | [] => none
      | c2 :: rest2 =>
        if c2 = rcurly then some (.obj [], rest2)
        else
          match pMembers rest with
          | some (fields, c3 :: rest3) =>
            if c3 = rcurly then some (.obj fields, rest3) else none
          | _ => none
    else if c.isDigit then
      match parseNat (c :: rest) with
      | some (n, rest2) => some (.num (n : Int), rest2)
      | none => none
    else none

/-- One step of the element-sequence parser: a value, then either a comma
and more elements or the end of the sequence. -/
def parseItemsStep (pVal : List Char → Option (Json × List Char))
    (pItems : List Char → Option (List Json × List Char))
    (cs : List Char) : Option (List Json × List Char) :=
  match pVal cs with
  | some (v, ',' :: rest) =>
    match pItems rest with
    | some (vs, rest2) => some (v :: vs, rest2)
    | none => none
  | some (v, rest) => some ([v], rest)
  | none => none

/-- One step of the member-sequence parser: a quoted key, a colon, a
value, then either a comma and more members or the end of the
sequence. -/
def parseMembersStep (pVal : List Char → Option (Json × List Char))
    (pMembers : List Char → Option (List (String × Json) × List Char))
    (cs : List Char) : Option (List (String × Json) × List Char) :=
  match cs with
  | '"' :: rest =>
    match parseStringBody rest with
    | some (content, ':' :: rest2) =>
      match pVal rest2 with
      | some (v, ',' :: rest3) =>
        match pMembers rest3 with
        | some (ms, rest4) => some ((String.mk content, v) :: ms, rest4)
        | none => none
      | some (v, rest3) => some ([(String.mk content, v)], rest3)
      | none => none
    | _ => none
  | _ => none

mutual

/-- Fuel-indexed parser for one JSON value; consumes fuel on every descent
into an array or object so that it is structurally recursive. -/
def parseVal : Nat → List Char → Option (Json × List Char)
  | 0, _ => none
  | Nat.succ fuel, cs => parseValStep (parseItems fuel) (parseMembers fuel) cs

/-- Parse a non-empty comma-separated sequence of JSON values. -/
def parseItems : Nat → List Char → Option (List Json × List Char)
  | 0, _ => none
  | Nat.succ fuel, cs => parseItemsStep (parseVal fuel) (parseItems fuel) cs

/-- Parse a non-empty comma-separated sequence of `"key":value` object
members. -/
def parseMembers : Nat → List Char → Option (List (String × Json) × List Char)
  | 0, _ => none
  | Nat.succ fuel, cs => parseMembersStep (parseVal fuel) (parseMembers fuel) cs

end

/-- Parse a complete JSON text: one value consuming the whole input.  The
fuel `2 * length + 2` exceeds the nesting budget any parseable input can
demand. -/
def parseText (s : String) : Option Json :=
  match parseVal (2 * s.data.length + 2) s.data with
  | some (j, []) => some j
  | _ => none

/- ------------------------------------------------------------------------
 - Persistent store adapter (persistCart / loadCart in CartContext.tsx)
 - --------------------------------------------------------------------- -/

/-- A localStorage instance: an association of keys to stored strings. -/
abbrev Storage := List (String × String)

/-- `localStorage.setItem`: replace any previous value under the key. -/
def setItem (st : Storage) (k v : String) : Storage :=
  (k, v) :: st.filter (fun e => e.1 ≠ k)

/-- `localStorage.getItem`: the stored value, if any. -/
def getItem (st : Storage) (k : String) : Option String :=
  (st.find? (fun e => e.1 == k)).map (fun e => e.2)

/-- The fixed storage key of CartContext.tsx. -/
def STORAGE_KEY : String := "spensit_cart"

/-- How JSON.stringify renders a `string | null` field. -/
def optStr : Option String → Json
  | some s => .str s
  | none => .null

/-- The JSON value JSON.stringify serializes for one cart item, keys in
the declaration order of interface CartItem. -/
def itemToJson (it : CartItem) : Json :=
  .obj [("productId", .str it.productId), ("name", .str it.name),
        ("price", .num it.price), ("currency", .str it.currency),
        ("image", .str it.image), ("color", optStr it.color),
        ("size", optStr it.size), ("quantity", .num it.quantity)]

/-- The JSON value serialized for the whole cart array. -/
def itemsToJson (items : List CartItem) : Json :=
  .arr (items.map itemToJson)

/-- JavaScript property access on a parsed object: with duplicate keys,
JSON.parse keeps the last occurrence. -/
def jGet : List (String × Json) → String → Option Json
  | [], _ => none
  | (k2, v) :: rest, k =>
    match jGet rest k with
    | some r => some r
    | none => if k2 = k then some v else none

/-- Read a mandatory string field. -/
def asStr : Option Json → Option String
  | some (.str s) => some s
  | _ => none

/-- Read a `string | null` field. -/
def asNullableStr : Option Json → Option (Option String)
  | some (.str s) => some (some s)
  | some .null => some none
  | _ => none

/-- Read a numeric field. -/
def asInt : Option Json → Option Int
  | some (.num n) => some n
  | _ => none

/-- Recover a `CartItem` from a parsed JSON object, field by field. -/
def itemFromJson : Json → Option CartItem
  | .obj fields => do
    let pid ← asStr (jGet fields "productId")
    let nm ← asStr (jGet fields "name")
    let pr ← asInt (jGet fields "price")
    let cur ← asStr (jGet fields "currency")
    let im ← asStr (jGet fields "image")
    let co ← asNullableStr (jGet fields "color")
    let sz ← asNullableStr (jGet fields "size")
    let q ← asInt (jGet fields "quantity")
    pure ⟨pid, nm, pr, cur, im, co, sz, q⟩
  | _ => none

/-- Recover a list of cart items from the elements of a parsed array. -/
def itemListFromJson : List Json → Option (List CartItem)
  | [] => some []
  | j :: rest =>
    match itemFromJson j, itemListFromJson rest with
    | some it, some its => some (it :: its)
    | _, _ => none

/-- Recover the whole cart list from a parsed JSON value. -/
def itemsFromJson : Json → Option (List CartItem)
  | .arr elems => itemListFromJson elems
  | _ => none

/-- `persistCart` from CartContext.tsx: serialize the items and write them
under the fixed key; when localStorage is unavailable (`none`) the
exception is caught and discarded, leaving everything unchanged. -/
def persistCart (items : List CartItem) (store : Option Storage) : Option Storage :=
  match store with
  | none => none
  | some st => some (setItem st STORAGE_KEY (String.mk (printJson (itemsToJson items))))

/-- `loadCart` from CartContext.tsx.  The TypeScript returns
`JSON.parse(stored) as CartItem[]` — an unchecked cast — so the runtime
result is the parsed JSON value itself, which this model returns.  A
missing key, an unavailable localStorage, a falsy stored text, or a parse
failure all fall through to the empty array. -/
def loadCart (store : Option Storage) : Json :=
  match store with
  | none => .arr []
  | some st =>
    match getItem st STORAGE_KEY with
    | none => .arr []
    | some text =>
      if text = "" then .arr []
      else
        match parseText text with
        | some j => j
        | none => .arr []

/- ------------------------------------------------------------------------
 - Checkout handoff (CheckoutButton.tsx and CartDrawer.tsx)
 - --------------------------------------------------------------------- -/

/-- The per-item projection both checkout call sites build:
`\x7b product_id, color, size, quantity \x7d` and nothing else. -/
def checkoutItemJson (it : CartItem) : Json :=
  .obj [("product_id", .str it.productId), ("color", optStr it.color),
        ("size", optStr it.size), ("quantity", .num it.quantity)]

/-- The fields of a cart item the checkout request is allowed to depend
on. -/
structure CheckoutView where
  productId : String
  color : Option String
  size : Option String
  quantity : Int
  currency : String
deriving Repr, DecidableEq

/-- Projection of an item onto its checkout-relevant fields. -/
def CartItem.checkoutView (it : CartItem) : CheckoutView :=
  ⟨it.productId, it.color, it.size, it.quantity, it.currency⟩

/-- The request body of CheckoutButton.tsx: `cart_items` plus a currency
hint from the first item.  With an empty cart the hint is `undefined` and
JSON.stringify drops the key entirely. -/
def checkoutButtonBody (items : List CartItem) : Json :=
  .obj (("cart_items", .arr (items.map checkoutItemJson)) ::
    (match items with
     | [] => []
     | first :: _ => [("currency", .str first.currency)]))

/-- `displayCurrency` of CartDrawer.tsx: the first item's currency, or
"USD" for an empty cart. -/
def displayCurrency (items : List CartItem) : String :=
  match items with
  | [] => "USD"
  | first :: _ => first.currency

/-- The request body of CartDrawer.tsx: `cart_items` plus the display
currency (always present). -/
def cartDrawerBody (items : List CartItem) : Json :=
  .obj [("cart_items", .arr (items.map checkoutItemJson)),
        ("currency", .str (displayCurrency items))]

/-- JavaScript truthiness on an optional string: `undefined` and the
empty string are falsy; a truthy value is returned as `some`. -/
def truthyVal : Option String → Option String
  | none => none
  | some s => if s = "" then none else some s

/-- The fields both handlers read from a successful response body. -/
structure RespData where
  checkout_url : Option String
  link_id : Option String
  brand_id : Option String
deriving Repr, DecidableEq

/-- The SpensPay redirect URL constructed from `brand_id` and `link_id`
(brand before link) at both call sites. -/
def tempcheckoutUrl (brandId linkId : String) : String :=
  "https://spenspay.spensit.com/tempcheckout/" ++ brandId ++ "/" ++ linkId

/-- Redirect resolution of CheckoutButton.tsx: a truthy `checkout_url` is
used verbatim; otherwise truthy `link_id` and `brand_id` are both
required and the URL is constructed; otherwise the handler throws. -/
def buttonResolve (d : RespData) : Except String String :=
  match truthyVal d.checkout_url with
  | some url => .ok url
  | none =>
    match truthyVal d.link_id, truthyVal d.brand_id with
    | some linkId, some brandId => .ok (tempcheckoutUrl brandId linkId)
    | _, _ => .error "No checkout URL or link_id/brand_id returned from the checkout API."

/-- Redirect resolution of CartDrawer.tsx: `checkout_url` is never
consulted; truthy `link_id` and `brand_id` are required (link checked
first) and the URL is always constructed. -/
def drawerResolve (d : RespData) : Except String String :=
  match truthyVal d.link_id with
  | none => .error "No link_id returned from the checkout API."
  | some linkId =>
    match truthyVal d.brand_id with
    | none => .error "No brand_id returned from the checkout API."
    | some brandId => .ok (tempcheckoutUrl brandId linkId)

/-- The generic failure message embedding the HTTP status:
`Checkout failed (status)`. -/
def fallbackMsg (status : Nat) : String :=
  "Checkout failed (" ++ toString status ++ ")"

/-- Message for a non-ok HTTP response: `body.error ||` the generic
message (a body that fails to parse yields an empty object and hence no
error field). -/
def httpErrMsg (errorField : Option String) (status : Nat) : String :=
  match truthyVal errorField with
  | some e => e
  | none => fallbackMsg status

/-- Outcome of the `fetch` call: a network-level rejection, or an HTTP
response with its ok flag, status, optional `error` body field, and the
redirect-relevant data fields. -/
inductive FetchOutcome where
  | netError (msg : String)
  | resp (ok : Bool) (status : Nat) (errorField : Option String) (data : RespData)
deriving Repr

/-- The externally visible primitive steps a checkout handler performs,
in program order. -/
inductive HandlerStep where
  | submit (body : Json)
  | dispatch (action : CartAction)
  | closeDrawerStep
  | navigate (url : String)
  | showError (msg : String)
deriving Repr

/-- The step trace of `handleCheckout` in CheckoutButton.tsx for a given
cart and fetch outcome: build and submit the body; on a non-ok response
or a failed resolution show the error; on success dispatch CLEAR_CART and
then navigate. -/
def buttonCheckout (items : List CartItem) (out : FetchOutcome) : List HandlerStep :=
  let body := checkoutButtonBody items
  match out with
  | .netError msg => [.submit body, .showError msg]
  | .resp ok status errorField d =>
    if ok then
      match buttonResolve d with
      | .ok url => [.submit body, .dispatch .clearCart, .navigate url]
      | .error m => [.submit body, .showError m]
    else
      [.submit body, .showError (httpErrMsg errorField status)]

/-- The step trace of `handleCheckout` in CartDrawer.tsx: as for the
button, but the body carries the display currency, resolution ignores
`checkout_url`, and the drawer is closed between clearing and
navigating. -/
def drawerCheckout (items : List CartItem) (out : FetchOutcome) : List HandlerStep :=
  let body := cartDrawerBody items
  match out with
  | .netError msg => [.submit body, .showError msg]
  | .resp ok status errorField d =>
    if ok then
      match drawerResolve d with
      | .ok url => [.submit body, .dispatch .clearCart, .closeDrawerStep, .navigate url]
      | .error m => [.submit body, .showError m]
    else
      [.submit body, .showError (httpErrMsg errorField status)]

/-- The session state a handler trace acts on: the in-memory items, the
localStorage instance, and where the browser was sent. -/
structure SessionState where
  items : List CartItem
  store : Option Storage
  navigatedTo : Option String
deriving Repr

/-- Execute one handler step against the session.  A dispatch runs the
reducer and — per the persist effect of CartProvider, which fires on every
items change — writes the new list through `persistCart`. -/
def runStep (s : SessionState) : HandlerStep → SessionState
  | .dispatch a =>
    let ni := cartReducer s.items a
    { s with items := ni, store := persistCart ni s.store }
  | .navigate url => { s with navigatedTo := some url }
  | _ => s

/-- Execute a handler trace from left to right. -/
def runSteps (s : SessionState) (steps : List HandlerStep) : SessionState :=
  steps.foldl runStep s

/- ------------------------------------------------------------------------
 - Majority-currency resolution (getMajorityCurrency in CartSummary.tsx)
 - --------------------------------------------------------------------- -/

/-- `counts[currency] = (counts[currency] || 0) + 1` on an
insertion-ordered association list — the model of the plain-object
accumulator, whose non-index string keys enumerate in insertion order. -/
def bumpCount : List (String × Nat) → String → List (String × Nat)
  | [], c => [(c, 1)]
  | (k, n) :: rest, c =>
    if k = c then (k, n + 1) :: rest else (k, n) :: bumpCount rest c

/-- The per-currency line-item counts of the cart, keys in first-seen
order. -/
def currencyCounts (items : List CartItem) : List (String × Nat) :=
  items.foldl (fun acc it => bumpCount acc it.currency) []

/-- `getMajorityCurrency` from CartSummary.tsx: empty cart falls back to
"USD"; otherwise start from `(items[0].currency, 0)` and keep the first
entry of the counts whose count strictly exceeds the running maximum. -/
def getMajorityCurrency (items : List CartItem) : String :=
  match items with
  | [] => "USD"
  | first :: _ =>
    ((currencyCounts items).foldl
      (fun acc kv => if kv.2 > acc.2 then kv else acc) (first.currency, 0)).1

/-- First-seen deduplication of a list, the spec's "scanning the list in
order". -/
def firstSeen (l : List String) : List String :=
  l.foldl (fun acc c => if c ∈ acc then acc else acc ++ [c]) []

/-- The highest count appearing in a counts list. -/
def maxCount (counts : List (String × Nat)) : Nat :=
  counts.foldl (fun m kv => max m kv.2) 0

/-- The first key of the counts list holding a given count. -/
def firstWithCount (counts : List (String × Nat)) (m : Nat) : Option String :=
  (counts.find? (fun kv => kv.2 == m)).map (fun kv => kv.1)

/- ------------------------------------------------------------------------
 - Auxiliary notions used by the statements
 - --------------------------------------------------------------------- -/

/-- Apply a sequence of reducer actions from left to right. -/
def applyActions (state : List CartItem) (acts : List CartAction) : List CartItem :=
  acts.foldl cartReducer state

/-- At most one line item per distinct variant identity. -/
def variantUniq (items : List CartItem) : Prop :=
  (items.map CartItem.key).Nodup

instance (items : List CartItem) : Decidable (variantUniq items) :=
  inferInstanceAs (Decidable (items.map CartItem.key).Nodup)

/-- An action whose hydration payload (if any) is itself free of
duplicate variants. -/
def goodAction : CartAction → Prop
  | .hydrate payload => variantUniq payload
  | _ => True

/-- The field names the checkout payload must never contain. -/
def forbiddenKeys : List String :=
  ["price", "subtotal", "total_price", "vat"]

/-- A concrete cart item used by witnesses and counterexamples. -/
def sampleItem : CartItem :=
  ⟨"p1", "Shirt", 10, "USD", "img.jpg", some "Black", some "M", 1⟩

/-- A second concrete cart item of a different variant. -/
def otherItem : CartItem :=
  ⟨"p2", "Hat", 5, "EUR", "hat.jpg", none, none, 2⟩

mutual

/-- Fuel budget sufficient to parse the printed form of a value. -/
def sizeV : Json → Nat
  | .null => 1
  | .bool _ => 1
  | .num _ => 1
  | .str _ => 1
  | .arr elems => 1 + sizeElems elems
  | .obj fields => 1 + sizeFields fields

/-- Fuel budget for a printed element sequence. -/
def sizeElems : List Json → Nat
  | [] => 1
  | j :: rest => 1 + sizeV j + sizeElems rest

/-- Fuel budget for a printed member sequence. -/
def sizeFields : List (String × Json) → Nat
  | [] => 1
  | (_, v) :: rest => 1 + sizeV v + sizeFields rest

end

/- ------------------------------------------------------------------------
 - Reducer lemmas
 - --------------------------------------------------------------------- -/

theorem isSameVariant_iff (a b : VariantKey) : isSameVariant a b = true ↔ a = b := by
  cases a; cases b
  simp [isSameVariant, VariantKey.mk.injEq, Bool.and_eq_true, beq_iff_eq]
  tauto

theorem isSameVariant_false_of_ne {a b : VariantKey} (h : a ≠ b) :
    isSameVariant a b = false := by
  rw [← Bool.not_eq_true, isSameVariant_iff]
  exact h

theorem key_set_quantity (it : CartItem) (q : Int) :
    ({ it with quantity := q } : CartItem).key = it.key := rfl

theorem addToCart_absent (p : CartItem) (state : List CartItem)
    (h : ∀ it ∈ state, it.key ≠ p.key) :
    addToCart p state = state ++ [p] := by
  induction state with
  | nil => rfl
  | cons e rest ih =>
    have he : isSameVariant e.key p.key = false :=
      isSameVariant_false_of_ne (h e (List.mem_cons_self e rest))
    simp only [addToCart, he, Bool.false_eq_true, if_false, List.cons_append,
      List.cons.injEq, true_and]
    exact ih fun it hit => h it (List.mem_cons_of_mem e hit)

theorem addToCart_found (p : CartItem) (pre : List CartItem) (e : CartItem)
    (post : List CartItem) (hpre : ∀ it ∈ pre, it.key ≠ p.key) (he : e.key = p.key) :
    addToCart p (pre ++ e :: post) =
      pre ++ { e with quantity := e.quantity + p.quantity } :: post := by
  induction pre with
  | nil =>
    have : isSameVariant e.key p.key = true := (isSameVariant_iff e.key p.key).mpr he
    simp [addToCart, this]
  | cons a pre ih =>
    have ha : isSameVariant a.key p.key = false :=
      isSameVariant_false_of_ne (hpre a (List.mem_cons_self a pre))
    simp only [List.cons_append, addToCart, ha, Bool.false_eq_true, if_false,
      List.cons.injEq, true_and]
    exact ih fun it hit => hpre it (List.mem_cons_of_mem a hit)

theorem addToCart_quantity_ge (p : CartItem) (state : List CartItem)
    (hs : ∀ it ∈ state, 1 ≤ it.quantity) (hp : 1 ≤ p.quantity) :
    ∀ it ∈ addToCart p state, 1 ≤ it.quantity := by
  induction state with
  | nil =>
    intro it hit
    simp only [addToCart, List.mem_singleton] at hit
    exact hit ▸ hp
  | cons e rest ih =>
    intro it hit
    by_cases hm : isSameVariant e.key p.key = true
    · simp only [addToCart, hm, if_true, List.mem_cons] at hit
      rcases hit with rfl | hit
      · have h1 : 1 ≤ e.quantity := hs e (List.mem_cons_self e rest)
        show 1 ≤ e.quantity + p.quantity
        omega
      · exact hs it (List.mem_cons_of_mem e hit)
    · have hm2 : isSameVariant e.key p.key = false := by
        revert hm; cases isSameVariant e.key p.key <;> simp
      simp only [addToCart, hm2, Bool.false_eq_true, if_false, List.mem_cons] at hit
      rcases hit with rfl | hit
      · exact hs it (List.mem_cons_self it rest)
      · exact ih (fun x hx => hs x (List.mem_cons_of_mem e hx)) it hit

theorem addToCart_keys_mem (p : CartItem) (state : List CartItem) :
    ∀ x ∈ (addToCart p state).map CartItem.key,
      x ∈ state.map CartItem.key ∨ x = p.key := by
  induction state with
  | nil => intro x hx; simp [addToCart] at hx; exact Or.inr hx
  | cons e rest ih =>
    intro x hx
    by_cases hm : isSameVariant e.key p.key = true
    · simp only [addToCart, hm, if_true, List.map_cons, List.mem_cons,
        key_set_quantity] at hx
      rcases hx with rfl | hx
      · exact Or.inl (by simp)
      · exact Or.inl (by simp [hx])
    · have hm2 : isSameVariant e.key p.key = false := by
        revert hm; cases isSameVariant e.key p.key <;> simp
      simp only [addToCart, hm2, Bool.false_eq_true, if_false, List.map_cons,
        List.mem_cons] at hx
      rcases hx with rfl | hx
      · exact Or.inl (by simp)
      · rcases ih x hx with h | h
        · exact Or.inl (by simp [h])
        · exact Or.inr h

theorem addToCart_uniq (p : CartItem) (state : List CartItem)
    (h : variantUniq state) : variantUniq (addToCart p state) := by
  induction state with
  | nil => simp [variantUniq, addToCart]
  | cons e rest ih =>
    unfold variantUniq at h
    simp only [List.map_cons, List.nodup_cons] at h
    obtain ⟨hnot, hrest⟩ := h
    by_cases hm : isSameVariant e.key p.key = true
    · unfold variantUniq
      simp only [addToCart, hm, if_true, List.map_cons, List.nodup_cons,
        key_set_quantity]
      exact ⟨hnot, hrest⟩
    · have hm2 : isSameVariant e.key p.key = false := by
        revert hm; cases isSameVariant e.key p.key <;> simp
      have hne : e.key ≠ p.key := by
        intro hk
        rw [(isSameVariant_iff e.key p.key).mpr hk] at hm2
        cases hm2
      unfold variantUniq
      simp only [addToCart, hm2, Bool.false_eq_true, if_false, List.map_cons,
        List.nodup_cons]
      refine ⟨?_, ih hrest⟩
      intro hx
      rcases addToCart_keys_mem p rest e.key hx with h | h
      · exact hnot h
      · exact hne h

theorem filter_keys_sublist (pr : CartItem → Bool) (state : List CartItem) :
    ((state.filter pr).map CartItem.key).Sublist (state.map CartItem.key) :=
  (List.filter_sublist state).map CartItem.key

theorem cartReducer_uniq (state : List CartItem) (a : CartAction)
    (h : variantUniq state) (hg : goodAction a) :
    variantUniq (cartReducer state a) := by
  cases a with
  | addItem p => exact addToCart_uniq p state h
  | removeItem k => exact (filter_keys_sublist _ state).nodup h
  | updateQuantity k q =>
    unfold variantUniq at h ⊢
    have : (cartReducer state (.updateQuantity k q)).map CartItem.key =
        state.map CartItem.key := by
      simp only [cartReducer, List.map_map]
      apply List.map_congr_left
      intro it _
      by_cases hm : isSameVariant it.key k = true <;>
        simp [Function.comp, hm, key_set_quantity]
    rw [this]; exact h
  | clearCart => simp [variantUniq, cartReducer]
  | hydrate l => exact hg

theorem applyActions_uniq (acts : List CartAction) :
    ∀ s, variantUniq s → (∀ a ∈ acts, goodAction a) →
      variantUniq (applyActions s acts) := by
  induction acts with
  | nil => intro s hs _; exact hs
  | cons a rest ih =>
    intro s hs hg
    show variantUniq (applyActions (cartReducer s a) rest)
    exact ih _ (cartReducer_uniq s a hs (hg a (List.mem_cons_self a rest)))
      (fun b hb => hg b (List.mem_cons_of_mem a hb))

/-- C9 (corrected): starting from the empty cart, every reachable state
holds at most one line item per `(productId, color, size)` variant
identity, provided every HYDRATE payload along the way is itself free of
duplicate variants.  (The unrestricted claim is false: HYDRATE installs
its payload verbatim, so hydrating a duplicated list — e.g. tampered
localStorage content, which `loadCart` does not validate — yields a state
with two entries of the same variant; see the counterexample.) -/
theorem variant_identity_invariant (acts : List CartAction)
    (h : ∀ a ∈ acts, goodAction a) : variantUniq (applyActions [] acts) :=
  applyActions_uniq acts [] (by simp [variantUniq]) h

/-- Witness for C9 at a concrete action sequence. -/
theorem variant_identity_invariant_witness :
    variantUniq (applyActions []
      [CartAction.addItem sampleItem, CartAction.addItem sampleItem,
       CartAction.removeItem otherItem.key]) :=
  variant_identity_invariant
    [CartAction.addItem sampleItem, CartAction.addItem sampleItem,
     CartAction.removeItem otherItem.key]
    (by
      intro a ha
      simp only [List.mem_cons, List.not_mem_nil, or_false] at ha
      rcases ha with rfl | rfl | rfl <;> trivial)

/-- Counterexample for C9 as frozen: the HYDRATE operation applied to the
(duplicate-free) empty state does not preserve variant uniqueness. -/
theorem variant_identity_invariant_cex :
    variantUniq ([] : List CartItem) ∧
    ¬ variantUniq (cartReducer [] (.hydrate [sampleItem, sampleItem])) := by
  constructor
  · simp [variantUniq]
  · decide

/-- C2 (corrected): every reducer action other than ADD_ITEM preserves the
`quantity ≥ 1` invariant unconditionally (UPDATE_QUANTITY by clamping with
`Math.max(1, ·)`), HYDRATE preserves it when its payload satisfies it, and
ADD_ITEM preserves it when the payload quantity is itself ≥ 1.  (The
frozen claim is false: ADD_ITEM performs no clamping — a non-positive
payload quantity is appended verbatim, or added into an existing entry's
quantity; see the counterexample.) -/
theorem quantity_invariant (state : List CartItem)
    (h : ∀ it ∈ state, 1 ≤ it.quantity) :
    (∀ k, ∀ it ∈ cartReducer state (.removeItem k), 1 ≤ it.quantity) ∧
    (∀ k q, ∀ it ∈ cartReducer state (.updateQuantity k q), 1 ≤ it.quantity) ∧
    (∀ it ∈ cartReducer state .clearCart, 1 ≤ it.quantity) ∧
    (∀ l, (∀ it ∈ l, 1 ≤ it.quantity) →
      ∀ it ∈ cartReducer state (.hydrate l), 1 ≤ it.quantity) ∧
    (∀ p, 1 ≤ p.quantity → ∀ it ∈ cartReducer state (.addItem p), 1 ≤ it.quantity) := by
  refine ⟨?_, ?_, ?_, ?_, ?_⟩
  · intro k it hit
    exact h it (List.mem_of_mem_filter hit)
  · intro k q it hit
    simp only [cartReducer, List.mem_map] at hit
    obtain ⟨a, ha, rfl⟩ := hit
    by_cases hm : isSameVariant a.key k = true
    · simp only [hm, if_true]
      exact le_max_left 1 q
    · have hm2 : isSameVariant a.key k = false := by
        revert hm; cases isSameVariant a.key k <;> simp
      simp only [hm2, Bool.false_eq_true, if_false]
      exact h a ha
  · intro it hit
    simp [cartReducer] at hit
  · intro l hl it hit
    exact hl it hit
  · intro p hp it hit
    exact addToCart_quantity_ge p state h hp it hit

/-- Witness for C2 at a concrete state and clamping action: the entry
left by SetQuantity(-7) satisfies the invariant. -/
theorem quantity_invariant_witness :
    1 ≤ ({ sampleItem with quantity := 1 } : CartItem).quantity :=
  (quantity_invariant [sampleItem] (by decide)).2.1 sampleItem.key (-7)
    { sampleItem with quantity := 1 } (by decide)

/-- Counterexample for C2 as frozen: an Add whose payload carries quantity
0 is not clamped — the reducer appends the entry with quantity 0. -/
theorem quantity_invariant_cex :
    cartReducer [] (.addItem { sampleItem with quantity := 0 }) =
      [{ sampleItem with quantity := 0 }] ∧
    ¬ (∀ it ∈ cartReducer [] (.addItem { sampleItem with quantity := 0 }),
        1 ≤ it.quantity) := by
  decide

/-- C10 (confirmed): SetQuantity maps every entry of the matching variant
to the same entry with quantity `max 1 q` (so exactly 1 whenever the
requested quantity is ≤ 0) and returns every non-matching entry unchanged
in all fields; it is a no-op by value when nothing matches.  Remove is
idempotent and a no-op by value for an absent variant. -/
theorem setQuantity_remove_props (state : List CartItem) (k : VariantKey) (q : Int) :
    (∀ i : Nat, (cartReducer state (.updateQuantity k q))[i]? =
      (state[i]?).map (fun it =>
        if isSameVariant it.key k then { it with quantity := max 1 q } else it)) ∧
    (q ≤ 0 → ∀ it ∈ cartReducer state (.updateQuantity k q),
      isSameVariant it.key k = true → it.quantity = 1) ∧
    ((∀ it ∈ state, isSameVariant it.key k = false) →
      cartReducer state (.updateQuantity k q) = state) ∧
    cartReducer (cartReducer state (.removeItem k)) (.removeItem k) =
      cartReducer state (.removeItem k) ∧
    ((∀ it ∈ state, isSameVariant it.key k = false) →
      cartReducer state (.removeItem k) = state) := by
  refine ⟨?_, ?_, ?_, ?_, ?_⟩
  · intro i
    simp [cartReducer, List.getElem?_map]
  · intro hq it hit hm
    simp only [cartReducer, List.mem_map] at hit
    obtain ⟨a, _, rfl⟩ := hit
    by_cases ha : isSameVariant a.key k = true
    · simp only [ha, if_true]
      show max 1 q = 1
      exact max_eq_left (by omega)
    · have ha2 : isSameVariant a.key k = false := by
        revert ha; cases isSameVariant a.key k <;> simp
      simp only [ha2, Bool.false_eq_true, if_false] at hm ⊢
  · intro hnone
    show state.map _ = state
    rw [show state.map (fun it =>
        if isSameVariant it.key k then { it with quantity := max 1 q } else it) =
        state.map id from List.map_congr_left ?_, List.map_id]
    intro a ha
    simp [hnone a ha]
  · simp [cartReducer, List.filter_filter]
  · intro hnone
    apply List.filter_eq_self.mpr
    intro a ha
    simp [hnone a ha]

/-- Witness for C10 at a concrete state: setting quantity -3 yields
exactly 1 on the matching entry. -/
theorem setQuantity_remove_props_witness :
    ({ sampleItem with quantity := 1 } : CartItem).quantity = 1 :=
  (setQuantity_remove_props [sampleItem, otherItem] sampleItem.key (-3)).2.1
    (by decide) { sampleItem with quantity := 1 } (by decide) (by decide)

theorem foldAdds_found (K : VariantKey) (rest : List CartItem)
    (hk : ∀ a ∈ rest, a.key = K) :
    ∀ (pre : List CartItem) (e : CartItem) (post : List CartItem),
      (∀ it ∈ pre, it.key ≠ K) → e.key = K →
      applyActions (pre ++ e :: post) (rest.map CartAction.addItem) =
        pre ++ { e with quantity := e.quantity + (rest.map CartItem.quantity).sum } :: post := by
  induction rest with
  | nil =>
    intro pre e post _ _
    show pre ++ e :: post = _
    rw [List.map_nil, List.sum_nil, Int.add_zero]
  | cons a rest ih =>
    intro pre e post hpre he
    have ha : a.key = K := hk a (List.mem_cons_self a rest)
    have step : cartReducer (pre ++ e :: post) (.addItem a) =
        pre ++ { e with quantity := e.quantity + a.quantity } :: post := by
      show addToCart a (pre ++ e :: post) = _
      exact addToCart_found a pre e post
        (fun it hit h2 => hpre it hit (h2.trans ha))
        (he.trans ha.symm)
    show applyActions (cartReducer (pre ++ e :: post) (.addItem a))
        (rest.map CartAction.addItem) = _
    rw [step,
      ih (fun b hb => hk b (List.mem_cons_of_mem a hb)) pre
        { e with quantity := e.quantity + a.quantity } post hpre he]
    simp only [List.map_cons, List.sum_cons]
    rw [Int.add_assoc]

/-- C1 (corrected): a non-empty sequence of Adds of one variant, applied
to a state where that variant is absent, yields the state with a single
entry of that variant appended at the end, quantity the sum of all added
quantities and all other fields those of the first Add; existing entries
and their order are untouched.  When the variant is already present once
(before any prefix occurrence), the stored entry is updated in place: its
quantity grows by the sum of the added quantities while its
name/price/image/currency remain the stored ones — not those of the first
Add of the sequence, which is where the frozen claim fails (see the
counterexample). -/
theorem dedup_add_sequence (state : List CartItem) (first : CartItem)
    (rest : List CartItem) (hk : ∀ a ∈ rest, a.key = first.key) :
    ((∀ it ∈ state, it.key ≠ first.key) →
      applyActions state ((first :: rest).map CartAction.addItem) =
        state ++ [{ first with
          quantity := first.quantity + (rest.map CartItem.quantity).sum }]) ∧
    (∀ (pre : List CartItem) (e : CartItem) (post : List CartItem),
      state = pre ++ e :: post → (∀ it ∈ pre, it.key ≠ first.key) →
      e.key = first.key →
      applyActions state ((first :: rest).map CartAction.addItem) =
        pre ++ { e with
          quantity := e.quantity + first.quantity +
            (rest.map CartItem.quantity).sum } :: post) := by
  constructor
  · intro habs
    show applyActions (cartReducer state (.addItem first)) (rest.map CartAction.addItem) = _
    have step : cartReducer state (.addItem first) = state ++ [first] :=
      addToCart_absent first state habs
    rw [step]
    have := foldAdds_found first.key rest hk state first [] habs rfl
    rw [show state ++ [first] = state ++ first :: [] from rfl, this]
  · intro pre e post hstate hpre he
    subst hstate
    show applyActions (cartReducer (pre ++ e :: post) (.addItem first))
        (rest.map CartAction.addItem) = _
    have step : cartReducer (pre ++ e :: post) (.addItem first) =
        pre ++ { e with quantity := e.quantity + first.quantity } :: post :=
      addToCart_found first pre e post hpre he
    rw [step,
      foldAdds_found first.key rest hk pre
        { e with quantity := e.quantity + first.quantity } post hpre he,
      Int.add_assoc]

/-- Witness for C1: two Adds of the same variant onto a cart holding a
different variant merge into one appended entry with summed quantity and
first-add fields. -/
theorem dedup_add_sequence_witness :
    applyActions [otherItem]
      ([sampleItem, { sampleItem with price := 999, quantity := 2 }].map
        CartAction.addItem) =
      [otherItem, { sampleItem with quantity := 3 }] := by
  have h := (dedup_add_sequence [otherItem] sampleItem
    [{ sampleItem with price := 999, quantity := 2 }] (by decide)).1 (by decide)
  exact h.trans (by decide)

/-- Counterexample for C1 as frozen: with the variant already present once
(stored quantity 5, stored name "Shirt"), a single Add of quantity 1 with
name "Other" yields quantity 6 — not the sum of the added quantities (1) —
and retains the stored name rather than the one supplied by the first
Add. -/
theorem dedup_add_sequence_cex :
    applyActions [{ sampleItem with quantity := 5 }]
        [CartAction.addItem { sampleItem with name := "Other", price := 999, quantity := 1 }] =
      [{ sampleItem with quantity := 6 }] ∧
    ¬ ((applyActions [{ sampleItem with quantity := 5 }]
        [CartAction.addItem { sampleItem with name := "Other", price := 999, quantity := 1 }]).map
          CartItem.quantity = [1]) ∧
    ¬ ((applyActions [{ sampleItem with quantity := 5 }]
        [CartAction.addItem { sampleItem with name := "Other", price := 999, quantity := 1 }]).map
          CartItem.name = ["Other"]) := by
  decide

/- ------------------------------------------------------------------------
 - Checkout payload purity (C3)
 - --------------------------------------------------------------------- -/

theorem hasKey_optStr (k : String) (o : Option String) :
    Json.hasKey k (optStr o) = false := by
  cases o <;> rfl

theorem hasKeyElems_of_all (k : String) (l : List Json)
    (h : ∀ j ∈ l, Json.hasKey k j = false) : hasKeyElems k l = false := by
  induction l with
  | nil => rfl
  | cons j rest ih =>
    simp only [hasKeyElems, Bool.or_eq_false_iff]
    exact ⟨h j (List.mem_cons_self j rest),
      ih fun x hx => h x (List.mem_cons_of_mem j hx)⟩

theorem hasKey_checkoutItem (k : String) (it : CartItem)
    (h1 : k ≠ "product_id") (h2 : k ≠ "color") (h3 : k ≠ "size")
    (h4 : k ≠ "quantity") :
    Json.hasKey k (checkoutItemJson it) = false := by
  have g1 : "product_id" ≠ k := Ne.symm h1
  have g2 : "color" ≠ k := Ne.symm h2
  have g3 : "size" ≠ k := Ne.symm h3
  have g4 : "quantity" ≠ k := Ne.symm h4
  simp [checkoutItemJson, Json.hasKey, hasKeyFields, hasKey_optStr,
    g1, g2, g3, g4]

theorem hasKey_buttonBody (k : String) (xs : List CartItem)
    (h1 : k ≠ "product_id") (h2 : k ≠ "color") (h3 : k ≠ "size")
    (h4 : k ≠ "quantity") (h5 : k ≠ "cart_items") (h6 : k ≠ "currency") :
    Json.hasKey k (checkoutButtonBody xs) = false := by
  have hitems : hasKeyElems k (xs.map checkoutItemJson) = false := by
    apply hasKeyElems_of_all
    intro j hj
    obtain ⟨it, _, rfl⟩ := List.mem_map.mp hj
    exact hasKey_checkoutItem k it h1 h2 h3 h4
  have g5 : "cart_items" ≠ k := Ne.symm h5
  have g6 : "currency" ≠ k := Ne.symm h6
  cases xs with
  | nil =>
    simp [checkoutButtonBody, Json.hasKey, hasKeyFields, hasKeyElems, g5]
  | cons a rest =>
    simp only [List.map_cons] at hitems
    simp [checkoutButtonBody, Json.hasKey, hasKeyFields, g5, g6, hitems]

theorem hasKey_drawerBody (k : String) (xs : List CartItem)
    (h1 : k ≠ "product_id") (h2 : k ≠ "color") (h3 : k ≠ "size")
    (h4 : k ≠ "quantity") (h5 : k ≠ "cart_items") (h6 : k ≠ "currency") :
    Json.hasKey k (cartDrawerBody xs) = false := by
  have hitems : hasKeyElems k (xs.map checkoutItemJson) = false := by
    apply hasKeyElems_of_all
    intro j hj
    obtain ⟨it, _, rfl⟩ := List.mem_map.mp hj
    exact hasKey_checkoutItem k it h1 h2 h3 h4
  have g5 : "cart_items" ≠ k := Ne.symm h5
  have g6 : "currency" ≠ k := Ne.symm h6
  simp [cartDrawerBody, Json.hasKey, hasKeyFields, g5, g6, hitems]

theorem checkoutItemJson_congr {a b : CartItem}
    (h : a.checkoutView = b.checkoutView) :
    checkoutItemJson a = checkoutItemJson b := by
  have h1 : a.productId = b.productId := congrArg CheckoutView.productId h
  have h2 : a.color = b.color := congrArg CheckoutView.color h
  have h3 : a.size = b.size := congrArg CheckoutView.size h
  have h4 : a.quantity = b.quantity := congrArg CheckoutView.quantity h
  simp [checkoutItemJson, h1, h2, h3, h4]

theorem mapItemJson_congr :
    ∀ {xs ys : List CartItem},
      xs.map CartItem.checkoutView = ys.map CartItem.checkoutView →
      xs.map checkoutItemJson = ys.map checkoutItemJson := by
  intro xs
  induction xs with
  | nil =>
    intro ys h
    cases ys with
    | nil => rfl
    | cons b ys => simp at h
  | cons a xs ih =>
    intro ys h
    cases ys with
    | nil => simp at h
    | cons b ys =>
      simp only [List.map_cons, List.cons.injEq] at h ⊢
      exact ⟨checkoutItemJson_congr h.1, ih h.2⟩

/-- C3 (confirmed): at both call sites, the checkout request body consists
of `cart_items` entries carrying exactly the keys `product_id`, `color`,
`size`, `quantity`, plus the optional top-level `currency` hint; no key
named `price`, `subtotal`, `total_price`, or `vat` occurs at any nesting
level; and two carts whose items agree on the checkout-relevant fields
(productId, color, size, quantity, currency) — i.e., differ only in
price/name/image — produce identical bodies. -/
theorem checkout_payload_purity (xs ys : List CartItem)
    (h : xs.map CartItem.checkoutView = ys.map CartItem.checkoutView) :
    (∀ k ∈ forbiddenKeys, Json.hasKey k (checkoutButtonBody xs) = false ∧
       Json.hasKey k (cartDrawerBody xs) = false) ∧
    (∀ j ∈ xs.map checkoutItemJson,
       Json.topKeys j = ["product_id", "color", "size", "quantity"]) ∧
    checkoutButtonBody xs = checkoutButtonBody ys ∧
    cartDrawerBody xs = cartDrawerBody ys := by
  refine ⟨?_, ?_, ?_, ?_⟩
  · intro k hk
    simp only [forbiddenKeys, List.mem_cons, List.not_mem_nil, or_false] at hk
    rcases hk with rfl | rfl | rfl | rfl <;>
      exact ⟨hasKey_buttonBody _ xs (by decide) (by decide) (by decide)
          (by decide) (by decide) (by decide),
        hasKey_drawerBody _ xs (by decide) (by decide) (by decide)
          (by decide) (by decide) (by decide)⟩
  · intro j hj
    obtain ⟨it, _, rfl⟩ := List.mem_map.mp hj
    rfl
  · have hmap := mapItemJson_congr h
    cases xs with
    | nil =>
      cases ys with
      | nil => rfl
      | cons b ys2 => simp at h
    | cons a xs2 =>
      cases ys with
      | nil => simp at h
      | cons b ys2 =>
        simp only [List.map_cons, List.cons.injEq] at h hmap
        have hcur : a.currency = b.currency := congrArg CheckoutView.currency h.1
        simp [checkoutButtonBody, hmap.1, hmap.2, hcur]
  · have hmap := mapItemJson_congr h
    have hcur : displayCurrency xs = displayCurrency ys := by
      cases xs with
      | nil =>
        cases ys with
        | nil => rfl
        | cons b ys2 => simp at h
      | cons a xs2 =>
        cases ys with
        | nil => simp at h
        | cons b ys2 =>
          simp only [List.map_cons, List.cons.injEq] at h
          exact congrArg CheckoutView.currency h.1
    simp [cartDrawerBody, hmap, hcur]

/-- Witness for C3: two concrete carts differing only in price, name, and
image produce the same checkout body. -/
theorem checkout_payload_purity_witness :
    checkoutButtonBody [sampleItem] =
      checkoutButtonBody [{ sampleItem with price := 999, name := "X", image := "z" }] :=
  (checkout_payload_purity [sampleItem]
      [{ sampleItem with price := 999, name := "X", image := "z" }]
      (by decide)).2.2.1

/- ------------------------------------------------------------------------
 - Redirect URL resolution (C4)
 - --------------------------------------------------------------------- -/

/-- C4 (corrected): the claimed resolution order holds at the
CheckoutButton call site — truthy `checkout_url` verbatim, else truthy
`link_id` and `brand_id` yield `.../tempcheckout/brand_id/link_id`, else
failure — but not at the CartDrawer call site, which never consults
`checkout_url`: it requires truthy `link_id` and `brand_id` (link checked
first) and always constructs the URL, failing otherwise (see the
counterexample). -/
theorem redirect_resolution (d : RespData) :
    (∀ url, truthyVal d.checkout_url = some url → buttonResolve d = .ok url) ∧
    (∀ linkId brandId, truthyVal d.checkout_url = none →
      truthyVal d.link_id = some linkId → truthyVal d.brand_id = some brandId →
      buttonResolve d = .ok (tempcheckoutUrl brandId linkId)) ∧
    (truthyVal d.checkout_url = none →
      (truthyVal d.link_id = none ∨ truthyVal d.brand_id = none) →
      buttonResolve d =
        .error "No checkout URL or link_id/brand_id returned from the checkout API.") ∧
    (∀ linkId brandId, truthyVal d.link_id = some linkId →
      truthyVal d.brand_id = some brandId →
      drawerResolve d = .ok (tempcheckoutUrl brandId linkId)) ∧
    ((truthyVal d.link_id = none ∨ truthyVal d.brand_id = none) →
      ∃ m, drawerResolve d = .error m) := by
  refine ⟨?_, ?_, ?_, ?_, ?_⟩
  · intro url hu
    simp [buttonResolve, hu]
  · intro linkId brandId hu hl hb
    simp [buttonResolve, hu, hl, hb]
  · intro hu hlb
    rcases hlb with hl | hb
    · simp [buttonResolve, hu, hl]
    · cases hl : truthyVal d.link_id <;> simp [buttonResolve, hu, hl, hb]
  · intro linkId brandId hl hb
    simp [drawerResolve, hl, hb]
  · intro hlb
    rcases hlb with hl | hb
    · exact ⟨"No link_id returned from the checkout API.",
        by simp [drawerResolve, hl]⟩
    · cases hl : truthyVal d.link_id
      · exact ⟨"No link_id returned from the checkout API.",
          by simp [drawerResolve, hl]⟩
      · exact ⟨"No brand_id returned from the checkout API.",
          by simp [drawerResolve, hl, hb]⟩

/-- Witness for C4 at a concrete response carrying all three fields. -/
theorem redirect_resolution_witness :
    buttonResolve ⟨some "https://pay.example/s1", some "abc", some "xyz"⟩ =
      .ok "https://pay.example/s1" :=
  (redirect_resolution ⟨some "https://pay.example/s1", some "abc", some "xyz"⟩).1
    "https://pay.example/s1" (by decide)

/-- Counterexample for C4 as frozen: on a response whose body carries only
`checkout_url`, the CartDrawer call site fails instead of using it
verbatim (while CheckoutButton does use it), so the claimed order does
not hold at every call site. -/
theorem redirect_resolution_cex :
    buttonResolve ⟨some "https://pay.example/s1", none, none⟩ =
      .ok "https://pay.example/s1" ∧
    drawerResolve ⟨some "https://pay.example/s1", none, none⟩ =
      .error "No link_id returned from the checkout API." ∧
    ∀ u, drawerResolve ⟨some "https://pay.example/s1", none, none⟩ ≠ .ok u := by
  refine ⟨rfl, rfl, ?_⟩
  intro u hu
  cases hu

/- ------------------------------------------------------------------------
 - Clearing before navigation (C5)
 - --------------------------------------------------------------------- -/

theorem getItem_setItem (st : Storage) (k v : String) :
    getItem (setItem st k v) k = some v := by
  simp [getItem, setItem]

theorem loadCart_persist_nil (st : Storage) :
    loadCart (persistCart [] (some st)) = Json.arr [] := by
  show loadCart (some (setItem st STORAGE_KEY
    (String.mk (printJson (itemsToJson []))))) = Json.arr []
  simp only [loadCart, getItem_setItem]
  rw [if_neg (by decide)]
  have hpt : parseText (String.mk (printJson (itemsToJson []))) =
      some (Json.arr []) := rfl
  rw [hpt]

/-- C5 (confirmed): at both call sites, whenever the handler trace
navigates to a resolved URL, a CLEAR_CART dispatch occurs strictly
earlier in the trace, and at the moment of navigation the in-memory cart
is empty and the persisted slot already holds the empty list (the persist
effect of CartProvider fires on the items change caused by the
dispatch). -/
theorem clear_before_navigate (items : List CartItem) (st : Storage)
    (out : FetchOutcome) (u : String) :
    (HandlerStep.navigate u ∈ buttonCheckout items out →
      ∃ pre post, buttonCheckout items out = pre ++ HandlerStep.navigate u :: post ∧
        HandlerStep.dispatch .clearCart ∈ pre ∧
        (runSteps ⟨items, some st, none⟩ pre).items = [] ∧
        loadCart (runSteps ⟨items, some st, none⟩ pre).store = Json.arr []) ∧
    (HandlerStep.navigate u ∈ drawerCheckout items out →
      ∃ pre post, drawerCheckout items out = pre ++ HandlerStep.navigate u :: post ∧
        HandlerStep.dispatch .clearCart ∈ pre ∧
        (runSteps ⟨items, some st, none⟩ pre).items = [] ∧
        loadCart (runSteps ⟨items, some st, none⟩ pre).store = Json.arr []) := by
  constructor
  · intro hmem
    rcases out with msg | ⟨ok, status, errF, d⟩
    · simp [buttonCheckout] at hmem
    · cases ok with
      | false => simp [buttonCheckout] at hmem
      | true =>
        cases hres : buttonResolve d with
        | error m => simp [buttonCheckout, hres] at hmem
        | ok url =>
          simp only [buttonCheckout, if_true, hres, List.mem_cons,
            List.not_mem_nil, or_false] at hmem
          rcases hmem with h | h | h
          · cases h
          · cases h
          · have hu : u = url := (HandlerStep.navigate.inj h.symm).symm
            subst hu
            refine ⟨[.submit (checkoutButtonBody items), .dispatch .clearCart], [],
              ?_, ?_, ?_, ?_⟩
            · simp [buttonCheckout, hres]
            · simp
            · rfl
            · exact loadCart_persist_nil st
  · intro hmem
    rcases out with msg | ⟨ok, status, errF, d⟩
    · simp [drawerCheckout] at hmem
    · cases ok with
      | false => simp [drawerCheckout] at hmem
      | true =>
        cases hres : drawerResolve d with
        | error m => simp [drawerCheckout, hres] at hmem
        | ok url =>
          simp only [drawerCheckout, if_true, hres, List.mem_cons,
            List.not_mem_nil, or_false] at hmem
          rcases hmem with h | h | h | h
          · cases h
          · cases h
          · cases h
          · have hu : u = url := (HandlerStep.navigate.inj h.symm).symm
            subst hu
            refine ⟨[.submit (cartDrawerBody items), .dispatch .clearCart,
                .closeDrawerStep], [], ?_, ?_, ?_, ?_⟩
            · simp [drawerCheckout, hres]
            · simp
            · rfl
            · exact loadCart_persist_nil st

/-- Witness for C5 at a concrete successful checkout outcome. -/
theorem clear_before_navigate_witness :
    ∃ pre post,
      buttonCheckout [sampleItem]
          (.resp true 200 none ⟨some "https://pay.example/s1", none, none⟩) =
        pre ++ HandlerStep.navigate "https://pay.example/s1" :: post ∧
      HandlerStep.dispatch .clearCart ∈ pre ∧
      (runSteps ⟨[sampleItem], some [], none⟩ pre).items = [] ∧
      loadCart (runSteps ⟨[sampleItem], some [], none⟩ pre).store = Json.arr [] :=
  (clear_before_navigate [sampleItem] []
      (.resp true 200 none ⟨some "https://pay.example/s1", none, none⟩)
      "https://pay.example/s1").1
    (by exact .tail _ (.tail _ (.head _)))

/- ------------------------------------------------------------------------
 - Failure handling and retry (C6)
 - --------------------------------------------------------------------- -/

/-- C6 (corrected): on every failed attempt — network exception, non-ok
HTTP response, or ok response lacking a redirect resolution — neither
handler dispatches or navigates, so the in-memory cart and the persisted
slot are left exactly as they were.  For a non-ok HTTP response the
surfaced message is the body's `error` field when that field is truthy
(present and non-empty) and otherwise `Checkout failed (status)`; a
network exception surfaces the exception's own message; a resolution
failure surfaces a fixed explanatory message (not the body's `error`
field — which is where the frozen claim fails, see the counterexample).
Every invocation submits the body projected from the items passed at that
call, so a retry resubmits the current cart, not the failed payload. -/
theorem checkout_failure_handling (items : List CartItem) (st : Storage)
    (status : Nat) (errF : Option String) (d : RespData) (msg : String) :
    (runSteps ⟨items, some st, none⟩ (buttonCheckout items (.netError msg)) =
        ⟨items, some st, none⟩ ∧
      HandlerStep.showError msg ∈ buttonCheckout items (.netError msg) ∧
      runSteps ⟨items, some st, none⟩ (drawerCheckout items (.netError msg)) =
        ⟨items, some st, none⟩ ∧
      HandlerStep.showError msg ∈ drawerCheckout items (.netError msg)) ∧
    (runSteps ⟨items, some st, none⟩
        (buttonCheckout items (.resp false status errF d)) = ⟨items, some st, none⟩ ∧
      runSteps ⟨items, some st, none⟩
        (drawerCheckout items (.resp false status errF d)) = ⟨items, some st, none⟩ ∧
      (∀ e, truthyVal errF = some e →
        HandlerStep.showError e ∈ buttonCheckout items (.resp false status errF d) ∧
        HandlerStep.showError e ∈ drawerCheckout items (.resp false status errF d)) ∧
      (truthyVal errF = none →
        HandlerStep.showError (fallbackMsg status) ∈
          buttonCheckout items (.resp false status errF d) ∧
        HandlerStep.showError (fallbackMsg status) ∈
          drawerCheckout items (.resp false status errF d))) ∧
    (∀ m, buttonResolve d = .error m →
      runSteps ⟨items, some st, none⟩
        (buttonCheckout items (.resp true status errF d)) = ⟨items, some st, none⟩ ∧
      HandlerStep.showError m ∈ buttonCheckout items (.resp true status errF d)) ∧
    (∀ m, drawerResolve d = .error m →
      runSteps ⟨items, some st, none⟩
        (drawerCheckout items (.resp true status errF d)) = ⟨items, some st, none⟩ ∧
      HandlerStep.showError m ∈ drawerCheckout items (.resp true status errF d)) ∧
    (∀ out, (buttonCheckout items out).head? =
        some (.submit (checkoutButtonBody items)) ∧
      (drawerCheckout items out).head? = some (.submit (cartDrawerBody items))) := by
  refine ⟨⟨rfl, ?_, rfl, ?_⟩, ⟨rfl, rfl, ?_, ?_⟩, ?_, ?_, ?_⟩
  · exact .tail _ (.head _)
  · exact .tail _ (.head _)
  · intro e he
    constructor
    · show HandlerStep.showError e ∈
        [.submit (checkoutButtonBody items), .showError (httpErrMsg errF status)]
      rw [show httpErrMsg errF status = e by simp [httpErrMsg, he]]
      exact .tail _ (.head _)
    · show HandlerStep.showError e ∈
        [.submit (cartDrawerBody items), .showError (httpErrMsg errF status)]
      rw [show httpErrMsg errF status = e by simp [httpErrMsg, he]]
      exact .tail _ (.head _)
  · intro he
    constructor
    · show HandlerStep.showError (fallbackMsg status) ∈
        [.submit (checkoutButtonBody items), .showError (httpErrMsg errF status)]
      rw [show httpErrMsg errF status = fallbackMsg status by simp [httpErrMsg, he]]
      exact .tail _ (.head _)
    · show HandlerStep.showError (fallbackMsg status) ∈
        [.submit (cartDrawerBody items), .showError (httpErrMsg errF status)]
      rw [show httpErrMsg errF status = fallbackMsg status by simp [httpErrMsg, he]]
      exact .tail _ (.head _)
  · intro m hm
    constructor
    · simp [buttonCheckout, hm]
      rfl
    · simp [buttonCheckout, hm]
  · intro m hm
    constructor
    · simp [drawerCheckout, hm]
      rfl
    · simp [drawerCheckout, hm]
  · intro out
    rcases out with m | ⟨ok, s2, e2, d2⟩
    · exact ⟨rfl, rfl⟩
    · cases ok with
      | false => exact ⟨rfl, rfl⟩
      | true =>
        constructor
        · cases hres : buttonResolve d2 <;> simp [buttonCheckout, hres]
        · cases hres : drawerResolve d2 <;> simp [drawerCheckout, hres]

/-- Witness for C6: a 500 response with no error body surfaces the generic
message embedding the status. -/
theorem checkout_failure_handling_witness :
    HandlerStep.showError (fallbackMsg 500) ∈
      buttonCheckout [otherItem] (.resp false 500 none ⟨none, none, none⟩) := by
  have h := checkout_failure_handling [otherItem] [] 500 none ⟨none, none, none⟩ "x"
  exact (h.2.1.2.2.2 rfl).1

/-- Counterexample for C6 as frozen: an HTTP-ok response carrying an
`error` field but no redirect data is a failed attempt whose surfaced
message is the fixed resolution message, not the body's error field. -/
theorem checkout_failure_handling_cex :
    buttonCheckout [sampleItem] (.resp true 200 (some "stock issue") ⟨none, none, none⟩) =
      [HandlerStep.submit (checkoutButtonBody [sampleItem]),
       HandlerStep.showError
         "No checkout URL or link_id/brand_id returned from the checkout API."] ∧
    HandlerStep.showError "stock issue" ∉
      buttonCheckout [sampleItem] (.resp true 200 (some "stock issue") ⟨none, none, none⟩) := by
  constructor
  · rfl
  · intro h
    rcases List.mem_cons.mp h with h1 | h2
    · cases h1
    · rcases List.mem_cons.mp h2 with h3 | h4
      · exact absurd (HandlerStep.showError.inj h3) (by decide)
      · exact List.not_mem_nil _ h4

/- ------------------------------------------------------------------------
 - Majority currency (C8)
 - --------------------------------------------------------------------- -/

theorem lookup_bumpCount (acc : List (String × Nat)) (c d : String) :
    List.lookup c (bumpCount acc d) =
      if c = d then some ((List.lookup c acc).getD 0 + 1)
      else List.lookup c acc := by
  induction acc with
  | nil =>
    by_cases hc : c = d
    · subst hc; simp [bumpCount, List.lookup]
    · simp [bumpCount, List.lookup, hc, beq_eq_false_iff_ne.mpr hc]
  | cons kv rest ih =>
    obtain ⟨k, n⟩ := kv
    by_cases hk : k = d
    · subst hk
      by_cases hc : c = k
      · subst hc; simp [bumpCount, List.lookup]
      · simp [bumpCount, List.lookup, hc, beq_eq_false_iff_ne.mpr hc]
    · by_cases hc : c = k
      · subst hc
        have hcd : ¬ c = d := fun hx => hk hx
        simp [bumpCount, hk, List.lookup, hcd]
      · simp [bumpCount, hk, List.lookup, beq_eq_false_iff_ne.mpr hc, ih]

theorem foldl_bump_lookup (items : List CartItem) (c : String) :
    ∀ acc : List (String × Nat),
      ((items.foldl (fun a it => bumpCount a it.currency) acc).lookup c).getD 0 =
        (acc.lookup c).getD 0 +
          (items.filter (fun it => it.currency == c)).length := by
  induction items with
  | nil => intro acc; simp
  | cons it rest ih =>
    intro acc
    show ((rest.foldl _ (bumpCount acc it.currency)).lookup c).getD 0 = _
    rw [ih (bumpCount acc it.currency), lookup_bumpCount]
    by_cases hc : c = it.currency
    · subst hc
      simp only [List.filter_cons, beq_self_eq_true, if_true, List.length_cons]
      simp only [if_pos rfl, Option.getD_some]
      omega
    · have : (it.currency == c) = false := beq_eq_false_iff_ne.mpr (fun hx => hc hx.symm)
      simp only [List.filter_cons, this, Bool.false_eq_true, if_false, if_neg hc]

theorem bumpCount_keys (acc : List (String × Nat)) (d : String) :
    (bumpCount acc d).map Prod.fst =
      if d ∈ acc.map Prod.fst then acc.map Prod.fst
      else acc.map Prod.fst ++ [d] := by
  induction acc with
  | nil => simp [bumpCount]
  | cons kv rest ih =>
    obtain ⟨k, n⟩ := kv
    by_cases hk : k = d
    · subst hk; simp [bumpCount]
    · have hne : ¬ d = k := fun hx => hk hx.symm
      simp only [bumpCount, hk, if_false, List.map_cons, List.mem_cons, hne,
        false_or, ih]
      by_cases hd : d ∈ rest.map Prod.fst
      · simp [hd]
      · simp [hd]

theorem foldl_bump_keys (items : List CartItem) :
    ∀ acc : List (String × Nat),
      (items.foldl (fun a it => bumpCount a it.currency) acc).map Prod.fst =
        (items.map CartItem.currency).foldl
          (fun ks c => if c ∈ ks then ks else ks ++ [c]) (acc.map Prod.fst) := by
  induction items with
  | nil => intro acc; rfl
  | cons it rest ih =>
    intro acc
    show (rest.foldl _ (bumpCount acc it.currency)).map Prod.fst = _
    rw [ih (bumpCount acc it.currency), bumpCount_keys]
    rfl

theorem currencyCounts_keys (items : List CartItem) :
    (currencyCounts items).map Prod.fst = firstSeen (items.map CartItem.currency) := by
  show (items.foldl _ []).map Prod.fst = _
  rw [foldl_bump_keys items []]
  rfl

theorem maxCount_foldl (l : List (String × Nat)) :
    ∀ a : Nat, l.foldl (fun m kv => max m kv.2) a = max a (maxCount l) := by
  induction l with
  | nil => intro a; simp [maxCount]
  | cons kv rest ih =>
    intro a
    show rest.foldl _ (max a kv.2) = _
    rw [ih (max a kv.2)]
    have : maxCount (kv :: rest) = max (max 0 kv.2) (maxCount rest) := by
      show rest.foldl _ (max 0 kv.2) = _
      rw [ih (max 0 kv.2)]
    rw [this]
    simp [Nat.zero_max, Nat.max_assoc]

theorem maxCount_cons (kv : String × Nat) (rest : List (String × Nat)) :
    maxCount (kv :: rest) = max kv.2 (maxCount rest) := by
  show rest.foldl _ (max 0 kv.2) = _
  rw [maxCount_foldl rest (max 0 kv.2)]
  simp [Nat.zero_max]

theorem le_maxCount (l : List (String × Nat)) :
    ∀ kv ∈ l, kv.2 ≤ maxCount l := by
  induction l with
  | nil => intro kv h; cases h
  | cons a rest ih =>
    intro kv h
    rw [maxCount_cons]
    rcases List.mem_cons.mp h with rfl | h2
    · exact le_max_left _ _
    · exact (ih kv h2).trans (le_max_right _ _)

theorem foldMax_stay (l : List (String × Nat)) :
    ∀ acc : String × Nat, (∀ kv ∈ l, kv.2 ≤ acc.2) →
      l.foldl (fun a kv => if kv.2 > a.2 then kv else a) acc = acc := by
  induction l with
  | nil => intro acc _; rfl
  | cons kv rest ih =>
    intro acc h
    have h1 : kv.2 ≤ acc.2 := h kv (List.mem_cons_self kv rest)
    show rest.foldl _ (if kv.2 > acc.2 then kv else acc) = acc
    rw [if_neg (by omega)]
    exact ih acc fun x hx => h x (List.mem_cons_of_mem kv hx)

theorem foldArgmax (l : List (String × Nat)) :
    ∀ acc : String × Nat, acc.2 < maxCount l →
      l.find? (fun kv => kv.2 == maxCount l) =
        some (l.foldl (fun a kv => if kv.2 > a.2 then kv else a) acc) := by
  induction l with
  | nil =>
    intro acc h
    simp [maxCount] at h
  | cons kv rest ih =>
    intro acc h
    simp only [maxCount_cons] at h ⊢
    by_cases hkv : kv.2 = max kv.2 (maxCount rest)
    · have hacc : acc.2 < kv.2 := by rw [hkv]; exact h
      have hstep : (kv :: rest).foldl (fun a kv => if kv.2 > a.2 then kv else a) acc =
          rest.foldl (fun a kv => if kv.2 > a.2 then kv else a) kv := by
        show rest.foldl _ (if kv.2 > acc.2 then kv else acc) = _
        rw [if_pos hacc]
      rw [hstep, foldMax_stay rest kv ?_]
      · have hp : (kv.2 == max kv.2 (maxCount rest)) = true := by
          rw [beq_iff_eq]; exact hkv
        simp [List.find?, hp]
      · intro x hx
        calc x.2 ≤ maxCount rest := le_maxCount rest x hx
          _ ≤ max kv.2 (maxCount rest) := le_max_right _ _
          _ = kv.2 := hkv.symm
    · have hM : max kv.2 (maxCount rest) = maxCount rest := by
        rcases le_total kv.2 (maxCount rest) with hle | hle
        · exact max_eq_right hle
        · exact absurd (max_eq_left hle).symm hkv
      have hkv2 : kv.2 < maxCount rest := by
        have h1 : kv.2 ≤ max kv.2 (maxCount rest) := le_max_left _ _
        rw [hM] at h1
        rcases Nat.lt_or_ge kv.2 (maxCount rest) with hx | hx
        · exact hx
        · exact absurd (le_antisymm h1 hx) (hM ▸ hkv)
      have hp : (kv.2 == max kv.2 (maxCount rest)) = false :=
        beq_eq_false_iff_ne.mpr hkv
      have hacc2 : (if kv.2 > acc.2 then kv else acc).2 < maxCount rest := by
        by_cases hgt : kv.2 > acc.2
        · rw [if_pos hgt]; exact hkv2
        · rw [if_neg hgt]; omega
      have hrec := ih (if kv.2 > acc.2 then kv else acc) hacc2
      show List.find? _ (kv :: rest) = some (rest.foldl _ (if kv.2 > acc.2 then kv else acc))
      simp only [List.find?, hp]
      simp only [hM]
      exact hrec

theorem bumpCount_ne_nil (acc : List (String × Nat)) (c : String) :
    bumpCount acc c ≠ [] := by
  cases acc with
  | nil => simp [bumpCount]
  | cons kv rest =>
    obtain ⟨k, n⟩ := kv
    by_cases hk : k = c <;> simp [bumpCount, hk]

theorem foldl_bump_ne_nil (items : List CartItem) :
    ∀ acc : List (String × Nat), acc ≠ [] →
      items.foldl (fun a it => bumpCount a it.currency) acc ≠ [] := by
  induction items with
  | nil => intro acc h; exact h
  | cons it rest ih =>
    intro acc _
    exact ih (bumpCount acc it.currency) (bumpCount_ne_nil acc it.currency)

theorem bumpCount_pos (acc : List (String × Nat)) (c : String)
    (h : ∀ kv ∈ acc, 1 ≤ kv.2) : ∀ kv ∈ bumpCount acc c, 1 ≤ kv.2 := by
  induction acc with
  | nil =>
    intro kv hkv
    simp only [bumpCount, List.mem_singleton] at hkv
    subst hkv
    exact le_refl 1
  | cons a rest ih =>
    obtain ⟨k, n⟩ := a
    intro kv hkv
    by_cases hk : k = c
    · simp only [bumpCount, hk, if_true, List.mem_cons] at hkv
      rcases hkv with rfl | hkv
      · show 1 ≤ n + 1; omega
      · exact h kv (List.mem_cons_of_mem _ hkv)
    · simp only [bumpCount, hk, if_false, List.mem_cons] at hkv
      rcases hkv with rfl | hkv
      · exact h (k, n) (List.mem_cons_self _ _)
      · exact ih (fun x hx => h x (List.mem_cons_of_mem _ hx)) kv hkv

theorem foldl_bump_pos (items : List CartItem) :
    ∀ acc : List (String × Nat), (∀ kv ∈ acc, 1 ≤ kv.2) →
      ∀ kv ∈ items.foldl (fun a it => bumpCount a it.currency) acc, 1 ≤ kv.2 := by
  induction items with
  | nil => intro acc h; exact h
  | cons it rest ih =>
    intro acc h
    exact ih (bumpCount acc it.currency) (bumpCount_pos acc it.currency h)

theorem currencyCounts_maxCount_pos (items : List CartItem) (h : items ≠ []) :
    1 ≤ maxCount (currencyCounts items) := by
  have hne : currencyCounts items ≠ [] := by
    cases items with
    | nil => exact absurd rfl h
    | cons it rest =>
      show rest.foldl _ (bumpCount [] it.currency) ≠ []
      exact foldl_bump_ne_nil rest (bumpCount [] it.currency)
        (bumpCount_ne_nil [] it.currency)
  have hpos : ∀ kv ∈ currencyCounts items, 1 ≤ kv.2 :=
    foldl_bump_pos items [] (by intro kv hkv; cases hkv)
  cases hc : currencyCounts items with
  | nil => exact absurd hc hne
  | cons kv rest =>
    have h1 : 1 ≤ kv.2 := hpos kv (by rw [hc]; exact List.mem_cons_self kv rest)
    rw [maxCount_cons]
    omega

/-- C8 (confirmed): the counts bookkeeping counts line items (not units)
per currency code in first-seen key order; the resolved currency is the
first key of the counts holding the maximal count — so a strictly highest
count wins and ties resolve to the currency encountered first while
scanning in list order; the empty cart yields the fixed fallback "USD";
and the list [EUR, USD, EUR, USD] resolves to "EUR". -/
theorem majority_currency (items : List CartItem) (h : items ≠ []) :
    (∀ c, ((currencyCounts items).lookup c).getD 0 =
      (items.filter (fun it => it.currency == c)).length) ∧
    (currencyCounts items).map Prod.fst = firstSeen (items.map CartItem.currency) ∧
    firstWithCount (currencyCounts items) (maxCount (currencyCounts items)) =
      some (getMajorityCurrency items) ∧
    getMajorityCurrency [] = "USD" ∧
    getMajorityCurrency
      [{ sampleItem with currency := "EUR" }, sampleItem,
       { sampleItem with currency := "EUR" }, sampleItem] = "EUR" := by
  refine ⟨?_, currencyCounts_keys items, ?_, rfl, by decide⟩
  · intro c
    have hl := foldl_bump_lookup items c []
    simpa using hl
  · cases items with
    | nil => exact absurd rfl h
    | cons first rest =>
      have hpos := currencyCounts_maxCount_pos (first :: rest) (by simp)
      have hmax : (first.currency, 0).2 < maxCount (currencyCounts (first :: rest)) := by
        show 0 < _
        omega
      have hfa := foldArgmax (currencyCounts (first :: rest)) (first.currency, 0) hmax
      unfold firstWithCount
      rw [hfa]
      rfl

/-- Witness for C8 at a concrete two-currency cart. -/
theorem majority_currency_witness :
    firstWithCount (currencyCounts [sampleItem, otherItem])
        (maxCount (currencyCounts [sampleItem, otherItem])) =
      some (getMajorityCurrency [sampleItem, otherItem]) :=
  (majority_currency [sampleItem, otherItem] (by decide)).2.2.1

/- ------------------------------------------------------------------------
 - Parse/print roundtrip: character-level lemmas
 - --------------------------------------------------------------------- -/

theorem digitChar_isDigit (d : Nat) (h : d < 10) : (digitChar d).isDigit = true := by
  interval_cases d <;> decide

theorem charDigitVal_digitChar (d : Nat) (h : d < 10) :
    charDigitVal (digitChar d) = d := by
  interval_cases d <;> decide

theorem isDigit_not_special (c : Char) (h : c.isDigit = true) :
    c ≠ 'n' ∧ c ≠ 't' ∧ c ≠ 'f' ∧ c ≠ '"' ∧ c ≠ '-' ∧ c ≠ '[' ∧ c ≠ lcurly := by
  refine ⟨?_, ?_, ?_, ?_, ?_, ?_, ?_⟩ <;>
    (intro hc; subst hc; exact absurd h (by decide))

theorem printNat_ne_nil (n : Nat) : printNat n ≠ [] := by
  unfold printNat
  by_cases h : n = 0
  · simp [h]
  · simp only [h, if_false]
    intro hx
    rw [List.reverse_eq_nil_iff, List.map_eq_nil_iff] at hx
    exact (Nat.digits_ne_nil_iff_ne_zero.mpr h) hx

theorem printNat_all_digits (n : Nat) : ∀ c ∈ printNat n, c.isDigit = true := by
  unfold printNat
  by_cases h : n = 0
  · simp only [h, if_true]
    intro c hc
    simp only [List.mem_singleton] at hc
    subst hc
    decide
  · simp only [h, if_false]
    intro c hc
    rw [List.mem_reverse, List.mem_map] at hc
    obtain ⟨d, hd, rfl⟩ := hc
    exact digitChar_isDigit d (Nat.digits_lt_base (by norm_num) hd)

theorem takeWhile_append_all {p : Char → Bool} (l rest : List Char)
    (hl : ∀ c ∈ l, p c = true)
    (hr : ∀ c, rest.head? = some c → p c = false) :
    (l ++ rest).takeWhile p = l ∧ (l ++ rest).dropWhile p = rest := by
  induction l with
  | nil =>
    simp only [List.nil_append]
    cases rest with
    | nil => exact ⟨rfl, rfl⟩
    | cons c rtail =>
      have := hr c rfl
      constructor
      · simp [List.takeWhile_cons, this]
      · simp [List.dropWhile_cons, this]
  | cons a l2 ih =>
    have ha : p a = true := hl a (List.mem_cons_self a l2)
    have hrec := ih (fun c hc => hl c (List.mem_cons_of_mem a hc))
    constructor
    · simp [List.takeWhile_cons, ha, hrec.1]
    · simp [List.dropWhile_cons, ha, hrec.2]

theorem parseNat_printNat (n : Nat) (rest : List Char)
    (hr : ∀ c, rest.head? = some c → c.isDigit = false) :
    parseNat (printNat n ++ rest) = some (n, rest) := by
  have htd := takeWhile_append_all (printNat n) rest (printNat_all_digits n) hr
  unfold parseNat
  rw [htd.1, htd.2, if_neg (printNat_ne_nil n)]
  congr 1
  congr 1
  unfold printNat
  by_cases h : n = 0
  · subst h; simp [charDigitVal, Nat.ofDigits]
  · simp only [h, if_false, List.map_reverse, List.reverse_reverse,
      List.map_map]
    have hmap : (Nat.digits 10 n).map (charDigitVal ∘ digitChar) =
        (Nat.digits 10 n).map id := by
      apply List.map_congr_left
      intro d hd
      exact charDigitVal_digitChar d (Nat.digits_lt_base (by norm_num) hd)
    rw [hmap, List.map_id, Nat.ofDigits_digits]

theorem parseStringBody_escape (cs : List Char) :
    ∀ rest : List Char,
      parseStringBody (escapeChars cs ++ '"' :: rest) = some (cs, rest) := by
  induction cs with
  | nil =>
    intro rest
    show parseStringBody ('"' :: rest) = some ([], rest)
    unfold parseStringBody
    simp
  | cons c cs2 ih =>
    intro rest
    show parseStringBody ((escapeChar c ++ escapeChars cs2) ++ '"' :: rest) = _
    rw [List.append_assoc]
    by_cases h1 : c = '"'
    · subst h1
      show parseStringBody ('\\' :: '"' :: (escapeChars cs2 ++ '"' :: rest)) = _
      simp [parseStringBody, ih rest]
    · by_cases h2 : c = '\\'
      · subst h2
        show parseStringBody ('\\' :: '\\' :: (escapeChars cs2 ++ '"' :: rest)) = _
        simp [parseStringBody, ih rest]
      · have he : escapeChar c = [c] := by simp [escapeChar, h1, h2]
        rw [he]
        show parseStringBody (c :: (escapeChars cs2 ++ '"' :: rest)) = _
        unfold parseStringBody
        simp only [h1, if_false, h2, ih rest]

/- ------------------------------------------------------------------------
 - Parser dispatch lemmas
 - --------------------------------------------------------------------- -/

theorem parseVal_succ (f : Nat) (cs : List Char) :
    parseVal (f + 1) cs = parseValStep (parseItems f) (parseMembers f) cs := rfl

theorem parseItems_succ (f : Nat) (cs : List Char) :
    parseItems (f + 1) cs = parseItemsStep (parseVal f) (parseItems f) cs := rfl

theorem parseMembers_succ (f : Nat) (cs : List Char) :
    parseMembers (f + 1) cs = parseMembersStep (parseVal f) (parseMembers f) cs := rfl

theorem parseVal_null (f : Nat) (rest : List Char) :
    parseVal (f + 1) ('n' :: 'u' :: 'l' :: 'l' :: rest) = some (.null, rest) := rfl

theorem parseVal_true (f : Nat) (rest : List Char) :
    parseVal (f + 1) ('t' :: 'r' :: 'u' :: 'e' :: rest) = some (.bool true, rest) := rfl

theorem parseVal_false (f : Nat) (rest : List Char) :
    parseVal (f + 1) ('f' :: 'a' :: 'l' :: 's' :: 'e' :: rest) =
      some (.bool false, rest) := rfl

theorem parseVal_str (f : Nat) (tail : List Char) :
    parseVal (f + 1) ('"' :: tail) =
      (match parseStringBody tail with
       | some (content, rest2) => some (.str (String.mk content), rest2)
       | none => none) := rfl

theorem parseVal_minus (f : Nat) (tail : List Char) :
    parseVal (f + 1) ('-' :: tail) =
      (match parseNat tail with
       | some (n, rest2) => some (.num (-(n : Int)), rest2)
       | none => none) := rfl

theorem parseVal_arr_nil (f : Nat) (rest : List Char) :
    parseVal (f + 1) ('[' :: ']' :: rest) = some (.arr [], rest) := rfl

theorem parseVal_obj_nil (f : Nat) (rest : List Char) :
    parseVal (f + 1) (lcurly :: rcurly :: rest) = some (.obj [], rest) := rfl

theorem parseVal_digit_start (f : Nat) (c : Char) (tail : List Char)
    (h : c.isDigit = true) :
    parseVal (f + 1) (c :: tail) =
      (match parseNat (c :: tail) with
       | some (n, rest2) => some (.num (n : Int), rest2)
       | none => none) := by
  obtain ⟨h1, h2, h3, h4, h5, h6, h7⟩ := isDigit_not_special c h
  rw [parseVal_succ]
  unfold parseValStep
  simp only [h1, h2, h3, h4, h5, h6, h7, if_false, h, if_true]

theorem parseVal_arr_cons (f : Nat) (c2 : Char) (t2 : List Char)
    (hc2 : ¬ c2 = ']') :
    parseVal (f + 1) ('[' :: c2 :: t2) =
      (match parseItems f (c2 :: t2) with
       | some (elems, ']' :: rest3) => some (.arr elems, rest3)
       | _ => none) := by
  rw [parseVal_succ]
  unfold parseValStep
  norm_num [hc2]
  rfl

theorem parseVal_obj_cons (f : Nat) (c2 : Char) (t2 : List Char)
    (hc2 : ¬ c2 = rcurly) :
    parseVal (f + 1) (lcurly :: c2 :: t2) =
      (match parseMembers f (c2 :: t2) with
       | some (fields, c3 :: rest3) =>
         if c3 = rcurly then some (.obj fields, rest3) else none
       | _ => none) := by
  rw [parseVal_succ]
  unfold parseValStep
  norm_num [hc2]
  rfl

theorem sizeV_pos (j : Json) : 1 ≤ sizeV j := by
  cases j <;> simp [sizeV] <;> omega

theorem sizeElems_pos (l : List Json) : 1 ≤ sizeElems l := by
  cases l <;> simp [sizeElems] <;> omega

theorem sizeFields_pos (fs : List (String × Json)) : 1 ≤ sizeFields fs := by
  cases fs with
  | nil => simp [sizeFields]
  | cons f0 fs2 =>
    obtain ⟨k, v⟩ := f0
    simp [sizeFields]
    omega

theorem commaSep_printElems_single (x : Json) :
    commaSep (printElems [x]) = printJson x := rfl

theorem commaSep_printElems_cons (x y : Json) (ys : List Json) :
    commaSep (printElems (x :: y :: ys)) =
      printJson x ++ ',' :: commaSep (printElems (y :: ys)) := rfl

theorem commaSep_printFields_single (f0 : String × Json) :
    commaSep (printFields [f0]) = printString f0.1 ++ ':' :: printJson f0.2 := rfl

theorem commaSep_printFields_cons (f0 g0 : String × Json)
    (gs : List (String × Json)) :
    commaSep (printFields (f0 :: g0 :: gs)) =
      (printString f0.1 ++ ':' :: printJson f0.2) ++
        ',' :: commaSep (printFields (g0 :: gs)) := rfl

theorem printJson_ne_nil (j : Json) : printJson j ≠ [] := by
  cases j with
  | null => simp [printJson]
  | bool b => cases b <;> simp [printJson]
  | num i =>
    show printInt i ≠ []
    unfold printInt
    by_cases hi : i < 0
    · simp [hi]
    · simp only [hi, if_false]
      exact printNat_ne_nil _
  | str s => simp [printJson, printString]
  | arr elems => simp [printJson]
  | obj fields => simp [printJson]

theorem printJson_head_not (j : Json) (tail : List Char)
    (h : printJson j = ']' :: tail) : False := by
  cases j with
  | null =>
    have h2 : some ('n' : Char) = some ']' := congrArg List.head? h
    exact absurd (Option.some.inj h2) (by decide)
  | bool b =>
    cases b with
    | true =>
      have h2 : some ('t' : Char) = some ']' := congrArg List.head? h
      exact absurd (Option.some.inj h2) (by decide)
    | false =>
      have h2 : some ('f' : Char) = some ']' := congrArg List.head? h
      exact absurd (Option.some.inj h2) (by decide)
  | num i =>
    have h3 : printInt i = ']' :: tail := h
    unfold printInt at h3
    by_cases hi : i < 0
    · rw [if_pos hi] at h3
      have h2 : some ('-' : Char) = some ']' := congrArg List.head? h3
      exact absurd (Option.some.inj h2) (by decide)
    · rw [if_neg hi] at h3
      have hmem : ']' ∈ printNat i.natAbs := by
        rw [h3]; exact List.mem_cons_self _ _
      exact absurd (printNat_all_digits _ _ hmem) (by decide)
  | str s =>
    have h2 : some ('"' : Char) = some ']' := congrArg List.head? h
    exact absurd (Option.some.inj h2) (by decide)
  | arr elems =>
    have h2 : some ('[' : Char) = some ']' := congrArg List.head? h
    exact absurd (Option.some.inj h2) (by decide)
  | obj fields =>
    have h2 : some lcurly = some ']' := congrArg List.head? h
    exact absurd (Option.some.inj h2) (by decide)

theorem parse_print_aux (fuel : Nat) :
    (∀ (j : Json) (rest : List Char), sizeV j ≤ fuel →
      (∀ c, rest.head? = some c → c.isDigit = false) →
      parseVal fuel (printJson j ++ rest) = some (j, rest)) ∧
    (∀ (l : List Json) (rest : List Char), sizeElems l ≤ fuel → l ≠ [] →
      (∀ c, rest.head? = some c → c.isDigit = false ∧ ¬ c = ',') →
      parseItems fuel (commaSep (printElems l) ++ rest) = some (l, rest)) ∧
    (∀ (fs : List (String × Json)) (rest : List Char), sizeFields fs ≤ fuel →
      fs ≠ [] →
      (∀ c, rest.head? = some c → c.isDigit = false ∧ ¬ c = ',') →
      parseMembers fuel (commaSep (printFields fs) ++ rest) = some (fs, rest)) := by
  induction fuel with
  | zero =>
    refine ⟨?_, ?_, ?_⟩
    · intro j rest hs _
      exact absurd hs (by have := sizeV_pos j; omega)
    · intro l rest hs _ _
      exact absurd hs (by have := sizeElems_pos l; omega)
    · intro fs rest hs _ _
      exact absurd hs (by have := sizeFields_pos fs; omega)
  | succ f ih =>
    obtain ⟨ihV, ihI, ihM⟩ := ih
    refine ⟨?_, ?_, ?_⟩
    · intro j rest hs hrest
      cases j with
      | null => exact parseVal_null f rest
      | bool b =>
        cases b with
        | true => exact parseVal_true f rest
        | false => exact parseVal_false f rest
      | num i =>
        by_cases hi : i < 0
        · have hpi : printJson (.num i) = '-' :: printNat i.natAbs := by
            show printInt i = _
            rw [printInt, if_pos hi]
          rw [hpi, List.cons_append, parseVal_minus,
            parseNat_printNat i.natAbs rest hrest]
          have habs : -((i.natAbs : Int)) = i := by omega
          show some (Json.num (-((i.natAbs : Int))), rest) = some (Json.num i, rest)
          rw [habs]
        · have hpi : printJson (.num i) = printNat i.natAbs := by
            show printInt i = _
            rw [printInt, if_neg hi]
          rw [hpi]
          cases hp : printNat i.natAbs with
          | nil => exact absurd hp (printNat_ne_nil _)
          | cons c0 t0 =>
            have hc0 : c0.isDigit = true :=
              printNat_all_digits i.natAbs c0
                (by rw [hp]; exact List.mem_cons_self _ _)
            rw [List.cons_append, parseVal_digit_start f c0 (t0 ++ rest) hc0]
            have hpn : parseNat (c0 :: (t0 ++ rest)) = some (i.natAbs, rest) := by
              have h2 := parseNat_printNat i.natAbs rest hrest
              rw [hp, List.cons_append] at h2
              exact h2
            rw [hpn]
            have habs : ((i.natAbs : Int)) = i := by omega
            show some (Json.num ((i.natAbs : Int)), rest) = some (Json.num i, rest)
            rw [habs]
      | str s =>
        have hps : printJson (.str s) ++ rest =
            '"' :: (escapeChars s.data ++ '"' :: rest) := by
          show ('"' :: escapeChars s.data ++ ['"']) ++ rest = _
          simp [List.append_assoc]
        rw [hps, parseVal_str, parseStringBody_escape s.data rest]
      | arr elems =>
        cases elems with
        | nil => exact parseVal_arr_nil f rest
        | cons x xs =>
          have hsz : sizeV (.arr (x :: xs)) = 1 + sizeElems (x :: xs) := rfl
          have hsize : sizeElems (x :: xs) ≤ f := by omega
          have hshape : printJson (.arr (x :: xs)) ++ rest =
              '[' :: (commaSep (printElems (x :: xs)) ++ ']' :: rest) := by
            show ('[' :: commaSep (printElems (x :: xs)) ++ [']']) ++ rest = _
            simp [List.append_assoc]
          rw [hshape]
          obtain ⟨Rtail, hRtail⟩ : ∃ rt, commaSep (printElems (x :: xs)) =
              printJson x ++ rt := by
            cases xs with
            | nil => exact ⟨[], by rw [commaSep_printElems_single]; simp⟩
            | cons y ys =>
              exact ⟨',' :: commaSep (printElems (y :: ys)),
                commaSep_printElems_cons x y ys⟩
          cases hx : printJson x with
          | nil => exact absurd hx (printJson_ne_nil x)
          | cons c0 t0 =>
            have hc0 : ¬ c0 = ']' := by
              intro hc
              subst hc
              exact printJson_head_not x t0 hx
            have hR : commaSep (printElems (x :: xs)) ++ ']' :: rest =
                c0 :: (t0 ++ (Rtail ++ ']' :: rest)) := by
              rw [hRtail, hx]
              simp [List.append_assoc]
            rw [hR, parseVal_arr_cons f c0 _ hc0, ← hR]
            rw [ihI (x :: xs) (']' :: rest) hsize (by simp)
              (fun c hc => by
                have h2 : ']' = c := Option.some.inj hc
                subst h2
                exact ⟨by decide, by decide⟩)]
            rfl
      | obj fields =>
        cases fields with
        | nil => exact parseVal_obj_nil f rest
        | cons f0 fs =>
          have hsz : sizeV (.obj (f0 :: fs)) = 1 + sizeFields (f0 :: fs) := rfl
          have hsize : sizeFields (f0 :: fs) ≤ f := by omega
          have hshape : printJson (.obj (f0 :: fs)) ++ rest =
              lcurly :: (commaSep (printFields (f0 :: fs)) ++ rcurly :: rest) := by
            show (lcurly :: commaSep (printFields (f0 :: fs)) ++ [rcurly]) ++ rest = _
            simp [List.append_assoc]
          rw [hshape]
          obtain ⟨Rtail, hRtail⟩ : ∃ rt, commaSep (printFields (f0 :: fs)) =
              (printString f0.1 ++ ':' :: printJson f0.2) ++ rt := by
            cases fs with
            | nil => exact ⟨[], by rw [commaSep_printFields_single]; simp⟩
            | cons g0 gs =>
              exact ⟨',' :: commaSep (printFields (g0 :: gs)),
                commaSep_printFields_cons f0 g0 gs⟩
          have hR : commaSep (printFields (f0 :: fs)) ++ rcurly :: rest =
              '"' :: ((escapeChars f0.1.data ++ ['"'] ++ ':' :: printJson f0.2)
                ++ (Rtail ++ rcurly :: rest)) := by
            rw [hRtail]
            show ((('"' :: escapeChars f0.1.data ++ ['"']) ++
              ':' :: printJson f0.2) ++ Rtail) ++ rcurly :: rest = _
            simp [List.append_assoc]
          rw [hR, parseVal_obj_cons f '"' _ (by decide), ← hR]
          rw [ihM (f0 :: fs) (rcurly :: rest) hsize (by simp)
            (fun c hc => by
              have h2 : rcurly = c := Option.some.inj hc
              subst h2
              exact ⟨by decide, by decide⟩)]
          simp
    · intro l rest hs hne hrest
      cases l with
      | nil => exact absurd rfl hne
      | cons x xs =>
        rw [parseItems_succ]
        cases xs with
        | nil =>
          rw [commaSep_printElems_single]
          unfold parseItemsStep
          have hsz : sizeElems [x] = 1 + sizeV x + 1 := rfl
          have hV : parseVal f (printJson x ++ rest) = some (x, rest) :=
            ihV x rest (by omega) (fun c hc => (hrest c hc).1)
          rw [hV]
          cases rest with
          | nil => rfl
          | cons c rtail =>
            have hc : ¬ c = ',' := (hrest c rfl).2
            split
            · next v r heq =>
              exfalso
              have h2 : c :: rtail = ',' :: r := congrArg Prod.snd (Option.some.inj heq)
              injection h2 with h3 _
              exact hc h3
            · next v r hex heq =>
              have h1 : x = v := congrArg Prod.fst (Option.some.inj heq)
              have h2 : c :: rtail = r := congrArg Prod.snd (Option.some.inj heq)
              rw [← h1, ← h2]
            · next heq => cases heq
        | cons y ys =>
          rw [commaSep_printElems_cons]
          unfold parseItemsStep
          have hshape :
              (printJson x ++ ',' :: commaSep (printElems (y :: ys))) ++ rest =
                printJson x ++ (',' :: (commaSep (printElems (y :: ys)) ++ rest)) := by
            simp [List.append_assoc]
          rw [hshape]
          have hsz : sizeElems (x :: y :: ys) =
              1 + sizeV x + sizeElems (y :: ys) := rfl
          have hV := ihV x (',' :: (commaSep (printElems (y :: ys)) ++ rest))
            (by omega)
            (fun c hc => by
              have h2 : ',' = c := Option.some.inj hc
              subst h2
              decide)
          have hI := ihI (y :: ys) rest (by omega) (by simp) hrest
          simp only [hV, hI]
    · intro fs rest hs hne hrest
      cases fs with
      | nil => exact absurd rfl hne
      | cons f0 gs =>
        rw [parseMembers_succ]
        obtain ⟨k, v⟩ := f0
        cases gs with
        | nil =>
          rw [commaSep_printFields_single]
          have hshape : ((printString k ++ ':' :: printJson v)) ++ rest =
              '"' :: (escapeChars k.data ++ '"' :: (':' :: (printJson v ++ rest))) := by
            show (('"' :: escapeChars k.data ++ ['"']) ++ ':' :: printJson v) ++ rest = _
            simp [List.append_assoc]
          rw [hshape]
          unfold parseMembersStep
          have hsz : sizeFields [(k, v)] = 1 + sizeV v + 1 := rfl
          have hV : parseVal f (printJson v ++ rest) = some (v, rest) :=
            ihV v rest (by omega) (fun c hc => (hrest c hc).1)
          simp only [parseStringBody_escape k.data (':' :: (printJson v ++ rest)), hV]
          cases rest with
          | nil => rfl
          | cons c rtail =>
            have hc : ¬ c = ',' := (hrest c rfl).2
            split
            · next v2 r heq =>
              exfalso
              have h2 : c :: rtail = ',' :: r := congrArg Prod.snd (Option.some.inj heq)
              injection h2 with h3 _
              exact hc h3
            · next v2 r hex heq =>
              have h1 : v = v2 := congrArg Prod.fst (Option.some.inj heq)
              have h2 : c :: rtail = r := congrArg Prod.snd (Option.some.inj heq)
              rw [← h1, ← h2]
            · next heq => cases heq
        | cons g0 gs2 =>
          rw [commaSep_printFields_cons]
          have hshape :
              (((printString k ++ ':' :: printJson v)) ++
                ',' :: commaSep (printFields (g0 :: gs2))) ++ rest =
              '"' :: (escapeChars k.data ++ '"' ::
                (':' :: (printJson v ++
                  (',' :: (commaSep (printFields (g0 :: gs2)) ++ rest))))) := by
            show ((('"' :: escapeChars k.data ++ ['"']) ++ ':' :: printJson v) ++
              ',' :: commaSep (printFields (g0 :: gs2))) ++ rest = _
            simp [List.append_assoc]
          rw [hshape]
          unfold parseMembersStep
          have hsz : sizeFields ((k, v) :: g0 :: gs2) =
              1 + sizeV v + sizeFields (g0 :: gs2) := rfl
          have hV := ihV v
            (',' :: (commaSep (printFields (g0 :: gs2)) ++ rest))
            (by omega)
            (fun c hc => by
              have h2 : ',' = c := Option.some.inj hc
              subst h2
              decide)
          have hM := ihM (g0 :: gs2) rest (by omega) (by simp) hrest
          simp only [parseStringBody_escape k.data
            (':' :: (printJson v ++ (',' :: (commaSep (printFields (g0 :: gs2)) ++ rest)))),
            hV, hM]

mutual

theorem sizeV_le_print : ∀ j : Json, sizeV j ≤ 2 * (printJson j).length
  | .null => by decide
  | .bool true => by decide
  | .bool false => by decide
  | .num i => by
    have h1 : 1 ≤ (printInt i).length := by
      cases hp : printInt i with
      | nil => exact absurd hp (printJson_ne_nil (.num i))
      | cons c t => simp
    have h2 : sizeV (.num i) = 1 := rfl
    have h3 : printJson (.num i) = printInt i := rfl
    rw [h2, h3]
    omega
  | .str s => by
    have h2 : sizeV (.str s) = 1 := rfl
    have h3 : (printJson (.str s)).length =
        (escapeChars s.data).length + 2 := by
      show ('"' :: escapeChars s.data ++ ['"']).length = _
      simp
    rw [h2, h3]
    omega
  | .arr l => by
    have h1 := sizeElems_le_print l
    have h2 : sizeV (.arr l) = 1 + sizeElems l := rfl
    have h3 : (printJson (.arr l)).length =
        (commaSep (printElems l)).length + 2 := by
      show ('[' :: commaSep (printElems l) ++ [']']).length = _
      simp
    rw [h2, h3]
    omega
  | .obj fs => by
    have h1 := sizeFields_le_print fs
    have h2 : sizeV (.obj fs) = 1 + sizeFields fs := rfl
    have h3 : (printJson (.obj fs)).length =
        (commaSep (printFields fs)).length + 2 := by
      show (lcurly :: commaSep (printFields fs) ++ [rcurly]).length = _
      simp
    rw [h2, h3]
    omega

theorem sizeElems_le_print : ∀ l : List Json,
    sizeElems l ≤ 2 * (commaSep (printElems l)).length + 2
  | [] => by decide
  | [x] => by
    have h1 := sizeV_le_print x
    have h2 : sizeElems [x] = 1 + sizeV x + 1 := rfl
    rw [h2, commaSep_printElems_single]
    omega
  | x :: y :: ys => by
    have h1 := sizeV_le_print x
    have h2 := sizeElems_le_print (y :: ys)
    have h3 : sizeElems (x :: y :: ys) = 1 + sizeV x + sizeElems (y :: ys) := rfl
    rw [h3, commaSep_printElems_cons]
    simp only [List.length_append, List.length_cons]
    omega

theorem sizeFields_le_print : ∀ fs : List (String × Json),
    sizeFields fs ≤ 2 * (commaSep (printFields fs)).length + 2
  | [] => by decide
  | [(k, v)] => by
    have h1 := sizeV_le_print v
    have h2 : sizeFields [(k, v)] = 1 + sizeV v + 1 := rfl
    rw [h2, commaSep_printFields_single]
    simp only [List.length_append, List.length_cons]
    omega
  | (k, v) :: g0 :: gs => by
    have h1 := sizeV_le_print v
    have h2 := sizeFields_le_print (g0 :: gs)
    have h3 : sizeFields ((k, v) :: g0 :: gs) =
        1 + sizeV v + sizeFields (g0 :: gs) := rfl
    rw [h3, commaSep_printFields_cons]
    simp only [List.length_append, List.length_cons]
    omega

end

theorem parseText_print (j : Json) :
    parseText (String.mk (printJson j)) = some j := by
  have h := (parse_print_aux (2 * (printJson j).length + 2)).1 j []
    (by have := sizeV_le_print j; omega) (fun c hc => by cases hc)
  rw [List.append_nil] at h
  show (match parseVal (2 * (printJson j).length + 2) (printJson j) with
        | some (j2, []) => some j2
        | _ => none) = some j
  simp only [h]

theorem itemFromJson_itemToJson (it : CartItem) :
    itemFromJson (itemToJson it) = some it := by
  obtain ⟨pid, nm, pr, cur, im, co, sz, q⟩ := it
  cases co <;> cases sz <;> rfl

theorem itemListFromJson_map (L : List CartItem) :
    itemListFromJson (L.map itemToJson) = some L := by
  induction L with
  | nil => rfl
  | cons it rest ih =>
    show itemListFromJson (itemToJson it :: rest.map itemToJson) = _
    unfold itemListFromJson
    simp only [itemFromJson_itemToJson, ih]

theorem itemsFromJson_itemsToJson (L : List CartItem) :
    itemsFromJson (itemsToJson L) = some L := by
  show itemListFromJson (L.map itemToJson) = some L
  exact itemListFromJson_map L

/-- C7 (confirmed): saving a cart and loading it back returns the same
list field for field: what is loaded is exactly the serialized JSON of the
saved items, and decoding that JSON recovers the original list.  A
missing key, an unavailable localStorage (the thrown exception is caught),
or stored text that fails to parse — e.g. a lone opening curly bracket —
all make `loadCart` return the empty array rather than propagate an
error, which it can never do, being a total function. -/
theorem persistence_roundtrip (L : List CartItem) (st : Storage) :
    loadCart (persistCart L (some st)) = itemsToJson L ∧
    itemsFromJson (itemsToJson L) = some L ∧
    loadCart (persistCart L none) = Json.arr [] ∧
    (∀ st2 : Storage, getItem st2 STORAGE_KEY = none →
      loadCart (some st2) = Json.arr []) ∧
    parseText "\x7b" = none ∧
    loadCart (some (setItem st STORAGE_KEY "\x7b")) = Json.arr [] := by
  refine ⟨?_, itemsFromJson_itemsToJson L, rfl, ?_, rfl, ?_⟩
  · show loadCart (some (setItem st STORAGE_KEY
      (String.mk (printJson (itemsToJson L))))) = _
    simp only [loadCart, getItem_setItem]
    have hne : ¬ (String.mk (printJson (itemsToJson L)) = "") := by
      intro h
      have h2 : printJson (itemsToJson L) = [] := congrArg String.data h
      exact printJson_ne_nil _ h2
    rw [if_neg hne, parseText_print]
  · intro st2 h
    simp [loadCart, h]
  · simp only [loadCart, getItem_setItem]
    rw [if_neg (by decide)]
    have hpt : parseText "\x7b" = none := rfl
    simp only [hpt]

/-- Witness for C7: loading from a storage holding no cart key yields the
empty array. -/
theorem persistence_roundtrip_witness :
    loadCart (some [("session", "x")]) = Json.arr [] :=
  (persistence_roundtrip [] [("session", "x")]).2.2.2.1 [("session", "x")] rfl
